import Mathlib

/-!
# Padded message source of the SHA-1 / SHA-256 code in libthoro

Shallow embedding of `hashfunctions/sha-256_aux.cpp`: the byte order helpers
`reverse32` / `reverse64`, the constructor of `BufferSource` (which computes the
padding eagerly) and `BufferSource::getNextMessageBlock`.

Conventions of the embedding.

* The code is compiled for a little-endian host (`BYTE_ORDER == LITTLE_ENDIAN`),
  the only configuration in which `reverse32` / `reverse64` exist.
* Fixed-width unsigned integers are natural numbers, reduced modulo `2 ^ 32` or
  `2 ^ 64` wherever the C++ arithmetic can wrap.
* A byte is a natural number; memory is a list of bytes.  Every `memcpy` and every
  indexed store is bounds-checked: touching a byte outside the buffer it is given
  yields `Fault.outOfBounds`, so a result `Except.ok` certifies that no access left
  its buffer.
* `throw 42` is the fault `Fault.thrown 42`.
-/

namespace SHA256

/-! ## Byte order adjustment -/

/-- Function `reverse32(w, x)`: the value stored into `x`.  The intermediate
`tmp` is a `uint32_t`, the result is truncated to 32 bits by the assignment to `x`. -/
def reverse32 (w : Nat) : Nat :=
  let tmp := w
  let tmp := ((tmp >>> 16) ||| (tmp <<< 16)) % 2 ^ 32
  (((tmp &&& 0xff00ff00) >>> 8) ||| ((tmp &&& 0x00ff00ff) <<< 8)) % 2 ^ 32

/-- Function `reverse64(w, x)`: the value stored into `x`; all arithmetic is on
`uint64_t`. -/
def reverse64 (w : Nat) : Nat :=
  let tmp := w
  let tmp := ((tmp >>> 32) ||| (tmp <<< 32)) % 2 ^ 64
  let tmp := (((tmp &&& 0xff00ff00ff00ff00) >>> 8) |||
              ((tmp &&& 0x00ff00ff00ff00ff) <<< 8)) % 2 ^ 64
  (((tmp &&& 0xffff0000ffff0000) >>> 16) |||
   ((tmp &&& 0x0000ffff0000ffff) <<< 16)) % 2 ^ 64

/-- Byte number `i` of the value `w`, byte 0 being the least significant one (the
byte at the lowest address on a little-endian host). -/
def byteOf (w i : Nat) : Nat := (w / 256 ^ i) % 256

/-! ## Memory primitives -/

/-- Ways in which a call can fail to return normally. -/
inductive Fault where
  | outOfBounds : Fault
  | thrown (code : Int) : Fault
deriving DecidableEq

/-- The source operand of `memcpy(dst, &buf[off], len)`: the `len` bytes of `buf`
from offset `off`.  Reading a byte outside `buf` is a fault; a copy of zero bytes
reads nothing. -/
def readBytes (buf : List Nat) (off len : Nat) : Except Fault (List Nat) :=
  if len = 0 ∨ off + len ≤ buf.length then .ok ((buf.drop off).take len)
  else .error Fault.outOfBounds

/-- The destination side of `memcpy(&buf[off], src, src.length)`.  Writing outside
`buf` is a fault; a copy of zero bytes writes nothing. -/
def writeBytes (buf : List Nat) (off : Nat) (src : List Nat) : Except Fault (List Nat) :=
  if src.length = 0 ∨ off + src.length ≤ buf.length then
    .ok (buf.take off ++ src ++ buf.drop (off + src.length))
  else .error Fault.outOfBounds

/-- The indexed store `buf[i] = v`. -/
def storeByte (buf : List Nat) (i v : Nat) : Except Fault (List Nat) :=
  if i < buf.length then .ok (buf.set i v) else .error Fault.outOfBounds

/-- The eight bytes of a `uint64_t` as they lie in memory on the little-endian
host (what `memcpy(dst, &data_length_in_bits, 8)` copies). -/
def storeU64 (w : Nat) : List Nat :=
  (List.range 8).map (fun i => byteOf w i)

/-- The `uint32_t` words that result from copying bytes over an array of words on
the little-endian host: each group of four bytes is one word, lowest address
least significant. -/
def loadWords : List Nat → List Nat
  | b0 :: b1 :: b2 :: b3 :: rest =>
      (b0 + 256 * b1 + 65536 * b2 + 16777216 * b3) :: loadWords rest
  | _ => []

/-! ## Data model -/

/-- Modelled from the spec: the enumeration `PaddingStatus` is declared in the
header `sha-256_sources.h`, which is not among the sources; the states and their
order are those of the spec (`Unpadded → Padded512 | Padded1024 →
Padded1024And512Read → PaddedAndAllRead`) with the names used in the code. -/
inductive PaddingStatus where
  | psUnpadded
  | psPadded512
  | psPadded1024
  | psPadded1024And512Read
  | psPaddedAndAllRead
deriving DecidableEq

/-- Modelled from the spec: the structure `MessageBlock` is declared in the missing
header; per the spec it is sixteen 32-bit words, accessed in the code as
`mBlock.words[i]`. -/
structure MessageBlock where
  words : List Nat
deriving DecidableEq

/-- Modelled from the spec: the members of `MessageSource` / `BufferSource` are
declared in the missing header `sha-256_sources.h`.  The fields are the members the
code uses; the cursor `m_BitsRead` and the byte count `m_BufferSize` are taken to be
`uint64_t` like the constructor argument `data_length_in_bits`.  The field
`m_BufferPointer` holds the bytes of the caller's buffer, `m_PaddingBuffer` the
bytes of the allocated padding frame. -/
structure BufferSource where
  m_BitsRead : Nat
  m_PaddingBuffer : List Nat
  m_Status : PaddingStatus
  m_BufferPointer : List Nat
  m_BufferSize : Nat
deriving DecidableEq

open PaddingStatus

/-- Position of a state in the order in which the spec lists them. -/
def PaddingStatus.rank : PaddingStatus → Nat
  | psUnpadded => 0
  | psPadded512 => 1
  | psPadded1024 => 1
  | psPadded1024And512Read => 2
  | psPaddedAndAllRead => 3

/-! ## The constructor -/

/-- Constructor `BufferSource::BufferSource(data, data_length_in_bits)`: the source
it leaves behind, or the fault of an access outside the buffer `data`.  `data` is
the caller's buffer, `data_length_in_bits` the declared length (a `uint64_t`).
It is called `construct` here, because the class name would shadow the structure
inside its own namespace. -/
def BufferSource.construct (data : List Nat) (data_length_in_bits : Nat) :
    Except Fault BufferSource := do
  let m_BufferSize := data_length_in_bits / 8 + (if data_length_in_bits % 8 > 0 then 1 else 0)
  let remainingDataBits := (m_BufferSize * 8) % 2 ^ 64 % 512 % 2 ^ 32
  let framed ←
    if remainingDataBits > 440 then do
      let buf := List.replicate (1024 / 8) 0
      let tail ← readBytes data (m_BufferSize - m_BufferSize % 64) (m_BufferSize % 64)
      let buf ← writeBytes buf 0 tail
      let len := reverse64 ((m_BufferSize * 8) % 2 ^ 64)
      let buf ← writeBytes buf ((1024 - 64) / 8) (storeU64 len)
      pure (buf, psPadded1024)
    else do
      let buf := List.replicate (512 / 8) 0
      let tail ← readBytes data (m_BufferSize - m_BufferSize % 64) (m_BufferSize % 64)
      let buf ← writeBytes buf 0 tail
      let len := reverse64 ((m_BufferSize * 8) % 2 ^ 64)
      let buf ← writeBytes buf ((512 - 64) / 8) (storeU64 len)
      pure (buf, psPadded512)
  let buf ← storeByte framed.1 (remainingDataBits / 8) 0x80
  pure { m_BitsRead := 0
         m_PaddingBuffer := buf
         m_Status := framed.2
         m_BufferPointer := data
         m_BufferSize := m_BufferSize }

/-! ## Pulling blocks -/

/-- The block left in `mBlock` after `memcpy(&(mBlock.words[0]), src, 64)` followed
by the loop `reverse32(mBlock.words[i], mBlock.words[i])` over all sixteen words. -/
def blockOfBytes (bytes : List Nat) : MessageBlock :=
  ⟨(loadWords bytes).map reverse32⟩

/-- Method `BufferSource::getNextMessageBlock(mBlock)`: the returned flag, the
caller's block after the call and the source after the call. -/
def BufferSource.getNextMessageBlock (s : BufferSource) (mBlock : MessageBlock) :
    Except Fault (Bool × MessageBlock × BufferSource) :=
  if (s.m_BitsRead + 512) % 2 ^ 64 ≤ s.m_BufferSize then do
    let bytes ← readBytes s.m_BufferPointer (s.m_BitsRead / 8) 64
    pure (true, blockOfBytes bytes, { s with m_BitsRead := (s.m_BitsRead + 512) % 2 ^ 64 })
  else
    match s.m_Status with
    | psPadded512 => do
        let bytes ← readBytes s.m_PaddingBuffer 0 64
        pure (true, blockOfBytes bytes,
          { s with m_Status := psPaddedAndAllRead, m_BitsRead := (s.m_BitsRead + 512) % 2 ^ 64 })
    | psPadded1024 => do
        let bytes ← readBytes s.m_PaddingBuffer 0 64
        pure (true, blockOfBytes bytes,
          { s with m_Status := psPadded1024And512Read,
                   m_BitsRead := (s.m_BitsRead + 512) % 2 ^ 64 })
    | psPadded1024And512Read => do
        let bytes ← readBytes s.m_PaddingBuffer 64 64
        pure (true, blockOfBytes bytes,
          { s with m_Status := psPaddedAndAllRead, m_BitsRead := (s.m_BitsRead + 512) % 2 ^ 64 })
    | psPaddedAndAllRead => pure (false, mBlock, s)
    | psUnpadded => throw (Fault.thrown 42)

/-- Outcome of draining a source. -/
inductive Drain where
  | blocks (bs : List MessageBlock) : Drain
  | fault (f : Fault) : Drain
  | outOfFuel : Drain
deriving DecidableEq

/-- Put a delivered block in front of the outcome of the remaining calls. -/
def Drain.cons (b : MessageBlock) : Drain → Drain
  | Drain.blocks bs => Drain.blocks (b :: bs)
  | other => other

/-- The caller's loop "call `getNextMessageBlock` until it returns false", reusing
one block variable: the blocks delivered by the calls that returned true, in
order.  `fuel` bounds the number of calls. -/
def pullAll : Nat → BufferSource → MessageBlock → Drain
  | 0, _, _ => Drain.outOfFuel
  | fuel + 1, s, mBlock =>
    match s.getNextMessageBlock mBlock with
    | .error f => Drain.fault f
    | .ok (false, _, _) => Drain.blocks []
    | .ok (true, mBlock', s') => (pullAll fuel s' mBlock').cons mBlock'

/-- The sources a caller can hold: the constructed one and every source left by a
call of `getNextMessageBlock` that returned normally, whatever block was passed. -/
inductive Reachable (s0 : BufferSource) : BufferSource → Prop where
  | init : Reachable s0 s0
  | pull {s s' : BufferSource} {mBlock mBlock' : MessageBlock} {r : Bool} :
      Reachable s0 s → s.getNextMessageBlock mBlock = .ok (r, mBlock', s') → Reachable s0 s'

/-! ## The padded message of FIPS 180-4, as the specification words it -/

/-- The eight bytes of a 64-bit value in big-endian order. -/
def beBytes64 (v : Nat) : List Nat :=
  (List.range 8).map (fun i => byteOf v (7 - i))

/-- Big-endian reading of four bytes as one 32-bit word. -/
def wordBE (b0 b1 b2 b3 : Nat) : Nat :=
  16777216 * b0 + 65536 * b1 + 256 * b2 + b3

/-- Big-endian reading of a byte sequence as 32-bit words. -/
def wordsBE : List Nat → List Nat
  | b0 :: b1 :: b2 :: b3 :: rest => wordBE b0 b1 b2 b3 :: wordsBE rest
  | _ => []

/-- The padded message of the specification: the data bytes, the byte `0x80`, the
least number of zero bytes that makes the total length a multiple of 64 bytes,
and the bit length `8 * L` as a 64-bit big-endian value. -/
def fipsPadded (data : List Nat) : List Nat :=
  data ++ [0x80] ++ List.replicate ((119 - data.length % 64) % 64) 0 ++
    beBytes64 (8 * data.length)

/-- Consecutive chunks of 64 bytes; `n` bounds the number of chunks. -/
def chunks64 : Nat → List Nat → List (List Nat)
  | 0, _ => []
  | n + 1, bytes => if bytes = [] then [] else bytes.take 64 :: chunks64 n (bytes.drop 64)

/-- The 512-bit blocks of the padded message of the specification, each as
sixteen big-endian words. -/
def fipsBlocks (data : List Nat) : List MessageBlock :=
  (chunks64 (data.length / 64 + 2) (fipsPadded data)).map (fun c => ⟨wordsBE c⟩)

/-- The source constructed for the empty message (no bytes, zero bits) after its
single padding block has been pulled; used as a concrete exhausted source. -/
def drainedEmptySource : BufferSource :=
  { m_BitsRead := 512
    m_PaddingBuffer := 0x80 :: List.replicate 63 0
    m_Status := psPaddedAndAllRead
    m_BufferPointer := []
    m_BufferSize := 0 }

/-- The source constructed for the empty message (no bytes, zero bits). -/
def emptySource : BufferSource :=
  { m_BitsRead := 0
    m_PaddingBuffer := 0x80 :: List.replicate 63 0
    m_Status := psPadded512
    m_BufferPointer := []
    m_BufferSize := 0 }

/-! ## Closed forms used to state what the code computes -/

/-- Byte count `m_BufferSize` computed by the constructor from the declared bit
length (first statement of the constructor). -/
def bufferSize (n : Nat) : Nat := n / 8 + (if n % 8 > 0 then 1 else 0)

/-- Size in bytes of the padding frame allocated for `B` payload bytes. -/
def frameSize (B : Nat) : Nat := if 56 ≤ B % 64 then 128 else 64

/-- Status recorded by the constructor for `B` payload bytes. -/
def frameStatus (B : Nat) : PaddingStatus := if 56 ≤ B % 64 then psPadded1024 else psPadded512

/-- Contents of the padding frame built by the constructor for the buffer `data`
with `B` payload bytes: the last `B % 64` payload bytes, the stop byte, zero
bytes, and the eight big-endian bytes of the stored bit length. -/
def paddingFrame (data : List Nat) (B : Nat) : List Nat :=
  (data.drop (B - B % 64)).take (B % 64) ++ 0x80 ::
    (List.replicate (frameSize B - 9 - B % 64) 0 ++ beBytes64 ((B * 8) % 2 ^ 64))

/-- The blocks read from the payload by `k` successful payload tests: block `i` is
read from the bytes `64 i .. 64 i + 63`. -/
def payloadBlocks (data : List Nat) (k : Nat) : List MessageBlock :=
  (List.range k).map (fun i => blockOfBytes ((data.drop (64 * i)).take 64))

/-- The blocks read from a padding frame: two for a 128-byte frame, else one. -/
def paddingBlocks (frame : List Nat) : List MessageBlock :=
  if frame.length = 128 then
    [blockOfBytes (frame.take 64), blockOfBytes ((frame.drop 64).take 64)]
  else [blockOfBytes (frame.take 64)]

/-- Value of a byte sequence read as one big-endian number. -/
def valueBE (bytes : List Nat) : Nat :=
  bytes.foldl (fun acc b => 256 * acc + b) 0

/-- Consistency of a source: the byte count fits the caller's buffer, the status is
a padded one, the frame has the size the status promises, and the cursor has
advanced no further than the payload plus the padding already delivered. -/
structure WellFormed (s : BufferSource) : Prop where
  size_le : s.m_BufferSize ≤ s.m_BufferPointer.length
  size_bound : s.m_BufferSize ≤ 2 ^ 61
  padded : s.m_Status ≠ psUnpadded
  frame512 : s.m_Status = psPadded512 → s.m_PaddingBuffer.length = 64
  frame1024 : s.m_Status = psPadded1024 → s.m_PaddingBuffer.length = 128
  frameHalf : s.m_Status = psPadded1024And512Read → s.m_PaddingBuffer.length = 128
  bits_fresh : s.m_Status = psPadded512 ∨ s.m_Status = psPadded1024 →
    s.m_BitsRead ≤ s.m_BufferSize
  bits_half : s.m_Status = psPadded1024And512Read → s.m_BitsRead ≤ s.m_BufferSize + 512
  bits_le : s.m_BitsRead ≤ s.m_BufferSize + 1024

/-! ## Bit-level facts about the byte order helpers -/

theorem testBit_byteOf (w i j : Nat) :
    (byteOf w i).testBit j = (decide (j < 8) && w.testBit (8 * i + j)) := by
  unfold byteOf
  have h256 : (256 : Nat) ^ i = 2 ^ (8 * i) := by rw [pow_mul]; norm_num
  rw [h256, show (256 : Nat) = 2 ^ 8 by norm_num, Nat.testBit_mod_two_pow,
    ← Nat.shiftRight_eq_div_pow, Nat.testBit_shiftRight]

theorem testBit_high (w n : Nat) (hw : w < 2 ^ n) (k : Nat) : w.testBit (k + n) = false :=
  Nat.testBit_lt_two_pow (lt_of_lt_of_le hw (Nat.pow_le_pow_right (by norm_num) (by omega)))

theorem mask32_hi (j : Nat) (hj : j < 32) :
    Nat.testBit 0xff00ff00 j = decide (8 ≤ j % 16) := by
  interval_cases j <;> rfl

theorem mask32_lo (j : Nat) (hj : j < 32) :
    Nat.testBit 0x00ff00ff j = decide (j % 16 < 8) := by
  interval_cases j <;> rfl

theorem testBit_reverse32 (w : Nat) (hw : w < 2 ^ 32) (j : Nat) :
    (reverse32 w).testBit j = (decide (j < 32) && w.testBit (8 * (3 - j / 8) + j % 8)) := by
  by_cases hj : j < 32
  · simp only [reverse32, Nat.testBit_mod_two_pow, Nat.testBit_shiftRight,
      Nat.testBit_shiftLeft, Nat.testBit_or, Nat.testBit_and]
    interval_cases j <;> simp [mask32_hi, mask32_lo, testBit_high w 32 hw]
  · simp only [reverse32, Nat.testBit_mod_two_pow]
    simp [hj]

theorem mask64_a (j : Nat) (hj : j < 64) :
    Nat.testBit 0xff00ff00ff00ff00 j = decide (8 ≤ j % 16) := by
  interval_cases j <;> rfl

theorem mask64_b (j : Nat) (hj : j < 64) :
    Nat.testBit 0x00ff00ff00ff00ff j = decide (j % 16 < 8) := by
  interval_cases j <;> rfl

theorem mask64_c (j : Nat) (hj : j < 64) :
    Nat.testBit 0xffff0000ffff0000 j = decide (16 ≤ j % 32) := by
  interval_cases j <;> rfl

theorem mask64_d (j : Nat) (hj : j < 64) :
    Nat.testBit 0x0000ffff0000ffff j = decide (j % 32 < 16) := by
  interval_cases j <;> rfl

theorem testBit_reverse64 (w : Nat) (hw : w < 2 ^ 64) (j : Nat) :
    (reverse64 w).testBit j = (decide (j < 64) && w.testBit (8 * (7 - j / 8) + j % 8)) := by
  by_cases hj : j < 64
  · simp only [reverse64, Nat.testBit_mod_two_pow, Nat.testBit_shiftRight,
      Nat.testBit_shiftLeft, Nat.testBit_or, Nat.testBit_and]
    interval_cases j <;>
      simp [mask64_a, mask64_b, mask64_c, mask64_d, testBit_high w 64 hw]
  · simp only [reverse64, Nat.testBit_mod_two_pow]
    simp [hj]

theorem reverse32_lt (w : Nat) : reverse32 w < 2 ^ 32 := Nat.mod_lt _ (by norm_num)

theorem reverse64_lt (w : Nat) : reverse64 w < 2 ^ 64 := Nat.mod_lt _ (by norm_num)

theorem reverse32_byteOf (w : Nat) (hw : w < 2 ^ 32) (i : Nat) (hi : i < 4) :
    byteOf (reverse32 w) i = byteOf w (3 - i) := by
  apply Nat.eq_of_testBit_eq
  intro j
  rw [testBit_byteOf, testBit_byteOf, testBit_reverse32 w hw]
  by_cases hj : j < 8
  · have h1 : 8 * (3 - (8 * i + j) / 8) + (8 * i + j) % 8 = 8 * (3 - i) + j := by omega
    have h2 : 8 * i + j < 32 := by omega
    rw [h1]
    simp [hj, h2]
  · simp [hj]

theorem reverse64_byteOf (w : Nat) (hw : w < 2 ^ 64) (i : Nat) (hi : i < 8) :
    byteOf (reverse64 w) i = byteOf w (7 - i) := by
  apply Nat.eq_of_testBit_eq
  intro j
  rw [testBit_byteOf, testBit_byteOf, testBit_reverse64 w hw]
  by_cases hj : j < 8
  · have h1 : 8 * (7 - (8 * i + j) / 8) + (8 * i + j) % 8 = 8 * (7 - i) + j := by omega
    have h2 : 8 * i + j < 64 := by omega
    rw [h1]
    simp [hj, h2]
  · simp [hj]

theorem reverse32_reverse32 (w : Nat) (hw : w < 2 ^ 32) : reverse32 (reverse32 w) = w := by
  apply Nat.eq_of_testBit_eq
  intro j
  rw [testBit_reverse32 _ (reverse32_lt w), testBit_reverse32 w hw]
  by_cases hj : j < 32
  · have h1 : 8 * (3 - (8 * (3 - j / 8) + j % 8) / 8) + (8 * (3 - j / 8) + j % 8) % 8 = j := by
      omega
    have h2 : 8 * (3 - j / 8) + j % 8 < 32 := by omega
    rw [h1]
    simp [hj, h2]
  · have hz : w.testBit j = false := by
      have := testBit_high w 32 hw (j - 32)
      rwa [show j - 32 + 32 = j by omega] at this
    simp [hj, hz]

theorem reverse64_reverse64 (w : Nat) (hw : w < 2 ^ 64) : reverse64 (reverse64 w) = w := by
  apply Nat.eq_of_testBit_eq
  intro j
  rw [testBit_reverse64 _ (reverse64_lt w), testBit_reverse64 w hw]
  by_cases hj : j < 64
  · have h1 : 8 * (7 - (8 * (7 - j / 8) + j % 8) / 8) + (8 * (7 - j / 8) + j % 8) % 8 = j := by
      omega
    have h2 : 8 * (7 - j / 8) + j % 8 < 64 := by omega
    rw [h1]
    simp [hj, h2]
  · have hz : w.testBit j = false := by
      have := testBit_high w 64 hw (j - 64)
      rwa [show j - 64 + 64 = j by omega] at this
    simp [hj, hz]

/-! ## The constructor in closed form -/

theorem writeBytes_zeroed (F : Nat) (tail : List Nat) (h : tail.length ≤ F) :
    writeBytes (List.replicate F 0) 0 tail = .ok (tail ++ List.replicate (F - tail.length) 0) := by
  simp [writeBytes, h]

theorem writeBytes_trailer (F : Nat) (tail lb : List Nat) (hlb : lb.length = 8)
    (h : tail.length + 8 ≤ F) :
    writeBytes (tail ++ List.replicate (F - tail.length) 0) (F - 8) lb
      = .ok (tail ++ (List.replicate (F - 8 - tail.length) 0 ++ lb)) := by
  have h1 : F - 8 + lb.length ≤ (tail ++ List.replicate (F - tail.length) 0).length := by
    simp; omega
  simp only [writeBytes, h1, or_true, if_true]
  congr 1
  rw [List.drop_of_length_le (by simp; omega), List.append_nil,
    List.take_append_eq_append_take, List.take_of_length_le (by omega : tail.length ≤ F - 8),
    List.take_replicate, List.append_assoc, Nat.min_eq_left (by omega)]

theorem storeByte_stop (tail rest : List Nat) (k : Nat) :
    storeByte (tail ++ (List.replicate (k + 1) 0 ++ rest)) tail.length 128
      = .ok (tail ++ 128 :: (List.replicate k 0 ++ rest)) := by
  have h1 : tail.length < (tail ++ (List.replicate (k + 1) 0 ++ rest)).length := by
    simp
  simp only [storeByte, h1, if_true]
  congr 1
  rw [List.set_append_right _ _ (le_refl _)]
  simp [List.replicate_succ]


theorem storeU64_reverse64 (v : Nat) (hv : v < 2 ^ 64) : storeU64 (reverse64 v) = beBytes64 v := by
  unfold storeU64 beBytes64
  apply List.map_congr_left
  intro i hi
  exact reverse64_byteOf v hv i (by simpa using hi)

theorem length_beBytes64 (v : Nat) : (beBytes64 v).length = 8 := by
  simp [beBytes64]

theorem readBytes_ok (buf : List Nat) (off len : Nat) (h : off + len ≤ buf.length) :
    readBytes buf off len = .ok ((buf.drop off).take len) := by
  simp [readBytes, h]

theorem bufferSize_le (n : Nat) (hn : n < 2 ^ 64) : bufferSize n ≤ 2 ^ 61 := by
  unfold bufferSize; split <;> omega

/-- The constructor in closed form, whenever the tail copy stays inside the caller's
buffer (it copies nothing when the byte count is a multiple of 64). -/
theorem construct_eq_of (data : List Nat) (n : Nat) (hn : n < 2 ^ 64)
    (hlen : bufferSize n % 64 = 0 ∨ bufferSize n ≤ data.length) :
    BufferSource.construct data n = .ok
      { m_BitsRead := 0
        m_PaddingBuffer := paddingFrame data (bufferSize n)
        m_Status := frameStatus (bufferSize n)
        m_BufferPointer := data
        m_BufferSize := bufferSize n } := by
  have hB : bufferSize n ≤ 2 ^ 61 := bufferSize_le n hn
  obtain ⟨B, hBdef⟩ : ∃ B, bufferSize n = B := ⟨_, rfl⟩
  rw [hBdef] at hB hlen ⊢
  have hrem : (B * 8) % 2 ^ 64 % 512 % 2 ^ 32 = 8 * (B % 64) := by omega
  have hread : readBytes data (B - B % 64) (B % 64)
      = .ok ((data.drop (B - B % 64)).take (B % 64)) := by
    rcases hlen with h0 | hle
    · simp [readBytes, h0]
    · exact readBytes_ok _ _ _ (by have := Nat.mod_le B 64; omega)
  have htl : ((data.drop (B - B % 64)).take (B % 64)).length = B % 64 := by
    rw [List.length_take, List.length_drop]; have := Nat.mod_le B 64; omega
  generalize htail : (data.drop (B - B % 64)).take (B % 64) = tail at *
  have hlenb : (storeU64 (reverse64 ((B * 8) % 2 ^ 64))) = beBytes64 ((B * 8) % 2 ^ 64) :=
    storeU64_reverse64 _ (Nat.mod_lt _ (by norm_num))
  have hr : B % 64 < 64 := Nat.mod_lt _ (by norm_num)
  unfold BufferSource.construct
  have hB2 : n / 8 + (if n % 8 > 0 then 1 else 0) = B := hBdef
  simp only [hB2, hrem, hread, hlenb]
  by_cases h56 : 56 ≤ B % 64
  · have h440 : 8 * (B % 64) > 440 := by omega
    have hk : 128 - 8 - tail.length = (128 - 9 - B % 64) + 1 := by omega
    simp only [h440, if_true, paddingFrame, frameSize, frameStatus, h56, htail]
    simp only [bind, Except.bind, pure, Except.pure, show (1024 : Nat) / 8 = 128 by norm_num,
      show ((1024 : Nat) - 64) / 8 = 128 - 8 by norm_num,
      writeBytes_zeroed 128 tail (by omega),
      writeBytes_trailer 128 tail _ (length_beBytes64 _) (by omega), hk,
      show 8 * (B % 64) / 8 = tail.length by omega, storeByte_stop]
  · have h440 : ¬ 8 * (B % 64) > 440 := by omega
    have hk : 64 - 8 - tail.length = (64 - 9 - B % 64) + 1 := by omega
    simp only [h440, if_false, paddingFrame, frameSize, frameStatus, h56, htail]
    simp only [bind, Except.bind, pure, Except.pure, show (512 : Nat) / 8 = 64 by norm_num,
      show ((512 : Nat) - 64) / 8 = 64 - 8 by norm_num,
      writeBytes_zeroed 64 tail (by omega),
      writeBytes_trailer 64 tail _ (length_beBytes64 _) (by omega), hk,
      show 8 * (B % 64) / 8 = tail.length by omega, storeByte_stop]


theorem construct_eq (data : List Nat) (n : Nat) (hn : n < 2 ^ 64)
    (hlen : bufferSize n ≤ data.length) :
    BufferSource.construct data n = .ok
      { m_BitsRead := 0
        m_PaddingBuffer := paddingFrame data (bufferSize n)
        m_Status := frameStatus (bufferSize n)
        m_BufferPointer := data
        m_BufferSize := bufferSize n } :=
  construct_eq_of data n hn (Or.inr hlen)

theorem bufferSize_bytes (L : Nat) : bufferSize (8 * L) = L := by
  unfold bufferSize
  have : ¬ (8 * L) % 8 > 0 := by omega
  simp only [this, if_false]
  omega

theorem length_paddingFrame (data : List Nat) (B : Nat)
    (h : B % 64 = 0 ∨ B ≤ data.length) :
    (paddingFrame data B).length = frameSize B := by
  have hr : B % 64 < 64 := Nat.mod_lt _ (by norm_num)
  have hm := Nat.mod_le B 64
  simp only [paddingFrame, List.length_append, List.length_cons, List.length_take,
    List.length_drop, List.length_replicate, length_beBytes64]
  unfold frameSize
  split <;> omega

/-! ## Words of a block -/

theorem byteOf_wordLE (b0 b1 b2 b3 : Nat) (h0 : b0 < 256) (h1 : b1 < 256) (h2 : b2 < 256)
    (h3 : b3 < 256) :
    byteOf (b0 + 256 * b1 + 65536 * b2 + 16777216 * b3) 0 = b0 ∧
    byteOf (b0 + 256 * b1 + 65536 * b2 + 16777216 * b3) 1 = b1 ∧
    byteOf (b0 + 256 * b1 + 65536 * b2 + 16777216 * b3) 2 = b2 ∧
    byteOf (b0 + 256 * b1 + 65536 * b2 + 16777216 * b3) 3 = b3 := by
  simp only [byteOf]
  norm_num
  refine ⟨?_, ?_, ?_, ?_⟩ <;> omega

theorem reverse32_wordLE (b0 b1 b2 b3 : Nat) (h0 : b0 < 256) (h1 : b1 < 256) (h2 : b2 < 256)
    (h3 : b3 < 256) :
    reverse32 (b0 + 256 * b1 + 65536 * b2 + 16777216 * b3) = wordBE b0 b1 b2 b3 := by
  have hw : b0 + 256 * b1 + 65536 * b2 + 16777216 * b3 < 2 ^ 32 := by omega
  have e0 := reverse32_byteOf _ hw 0 (by norm_num)
  have e1 := reverse32_byteOf _ hw 1 (by norm_num)
  have e2 := reverse32_byteOf _ hw 2 (by norm_num)
  have e3 := reverse32_byteOf _ hw 3 (by norm_num)
  have hlt := reverse32_lt (b0 + 256 * b1 + 65536 * b2 + 16777216 * b3)
  obtain ⟨c0, c1, c2, c3⟩ := byteOf_wordLE b0 b1 b2 b3 h0 h1 h2 h3
  simp only [Nat.sub_zero, show 3 - 1 = 2 from rfl, show 3 - 2 = 1 from rfl, Nat.sub_self,
    c0, c1, c2, c3] at e0 e1 e2 e3
  generalize reverse32 (b0 + 256 * b1 + 65536 * b2 + 16777216 * b3) = r at *
  simp only [byteOf] at e0 e1 e2 e3
  norm_num at e0 e1 e2 e3 hlt
  have d2 : r / 65536 = r / 256 / 256 := by rw [Nat.div_div_eq_div_mul]
  have d3 : r / 16777216 = r / 256 / 256 / 256 := by
    rw [Nat.div_div_eq_div_mul, Nat.div_div_eq_div_mul]
  rw [d2] at e2
  rw [d3] at e3
  unfold wordBE
  omega

theorem loadWords_append (pre rest : List Nat) (h : 4 ∣ pre.length) :
    loadWords (pre ++ rest) = loadWords pre ++ loadWords rest := by
  induction pre using loadWords.induct with
  | case1 b0 b1 b2 b3 tl ih =>
    have : 4 ∣ tl.length := by
      simp only [List.length_cons] at h; omega
    simp [loadWords, ih this]
  | case2 l hl =>
    have : l = [] := by
      match l, hl, h with
      | [], _, _ => rfl
      | [_], _, h => simp at h
      | [_, _], _, h => simp at h; omega
      | [_, _, _], _, h => simp at h; omega
      | _ :: _ :: _ :: _ :: _, hl, _ => exact absurd rfl (hl _ _ _ _ _)
    subst this
    simp [loadWords]

theorem length_loadWords (l : List Nat) : (loadWords l).length = l.length / 4 := by
  induction l using loadWords.induct with
  | case1 b0 b1 b2 b3 tl ih =>
    simp only [loadWords, List.length_cons, ih]; omega
  | case2 l hl =>
    match l, hl with
    | [], _ => simp [loadWords]
    | [_], _ => simp [loadWords]
    | [_, _], _ => simp [loadWords]
    | [_, _, _], _ => simp [loadWords]
    | _ :: _ :: _ :: _ :: _, hl => exact absurd rfl (hl _ _ _ _ _)

theorem byteOf_lt (v i : Nat) : byteOf v i < 256 := Nat.mod_lt _ (by norm_num)

theorem beBytes64_eq (v : Nat) : beBytes64 v =
    [byteOf v 7, byteOf v 6, byteOf v 5, byteOf v 4, byteOf v 3, byteOf v 2, byteOf v 1,
      byteOf v 0] := rfl

theorem trailer_words (v : Nat) (hv : v < 2 ^ 64) :
    (loadWords (beBytes64 v)).map reverse32 = [v / 2 ^ 32, v % 2 ^ 32] := by
  rw [beBytes64_eq]
  simp only [loadWords, List.map_cons, List.map_nil]
  rw [reverse32_wordLE _ _ _ _ (byteOf_lt _ _) (byteOf_lt _ _) (byteOf_lt _ _) (byteOf_lt _ _),
    reverse32_wordLE _ _ _ _ (byteOf_lt _ _) (byteOf_lt _ _) (byteOf_lt _ _) (byteOf_lt _ _)]
  simp only [wordBE, byteOf]
  norm_num
  constructor <;> omega


/-! ## Single calls of `getNextMessageBlock` -/

theorem getNext_payload (s : BufferSource) (mBlock : MessageBlock)
    (h : s.m_BitsRead + 512 ≤ s.m_BufferSize) (hsz : s.m_BufferSize ≤ s.m_BufferPointer.length)
    (hb : s.m_BufferSize < 2 ^ 64) :
    s.getNextMessageBlock mBlock = .ok (true,
      blockOfBytes ((s.m_BufferPointer.drop (s.m_BitsRead / 8)).take 64),
      { s with m_BitsRead := s.m_BitsRead + 512 }) := by
  have h1 : (s.m_BitsRead + 512) % 2 ^ 64 = s.m_BitsRead + 512 := Nat.mod_eq_of_lt (by omega)
  have h2 : readBytes s.m_BufferPointer (s.m_BitsRead / 8) 64
      = .ok ((s.m_BufferPointer.drop (s.m_BitsRead / 8)).take 64) :=
    readBytes_ok _ _ _ (by omega)
  simp only [BufferSource.getNextMessageBlock, h1, h, if_true, h2, bind, Except.bind, pure,
    Except.pure]

theorem getNext_padded512 (s : BufferSource) (mBlock : MessageBlock)
    (h : ¬ s.m_BitsRead + 512 ≤ s.m_BufferSize) (hw : s.m_BitsRead + 512 < 2 ^ 64)
    (hst : s.m_Status = psPadded512) (hfl : 64 ≤ s.m_PaddingBuffer.length) :
    s.getNextMessageBlock mBlock = .ok (true, blockOfBytes (s.m_PaddingBuffer.take 64),
      { s with m_Status := psPaddedAndAllRead, m_BitsRead := s.m_BitsRead + 512 }) := by
  have h1 : (s.m_BitsRead + 512) % 2 ^ 64 = s.m_BitsRead + 512 := Nat.mod_eq_of_lt hw
  have h2 : readBytes s.m_PaddingBuffer 0 64 = .ok (s.m_PaddingBuffer.take 64) := by
    rw [readBytes_ok _ _ _ (by omega)]; simp
  simp only [BufferSource.getNextMessageBlock, h1, h, if_false, hst, h2, bind, Except.bind, pure,
    Except.pure]

theorem getNext_padded1024 (s : BufferSource) (mBlock : MessageBlock)
    (h : ¬ s.m_BitsRead + 512 ≤ s.m_BufferSize) (hw : s.m_BitsRead + 512 < 2 ^ 64)
    (hst : s.m_Status = psPadded1024) (hfl : 64 ≤ s.m_PaddingBuffer.length) :
    s.getNextMessageBlock mBlock = .ok (true, blockOfBytes (s.m_PaddingBuffer.take 64),
      { s with m_Status := psPadded1024And512Read, m_BitsRead := s.m_BitsRead + 512 }) := by
  have h1 : (s.m_BitsRead + 512) % 2 ^ 64 = s.m_BitsRead + 512 := Nat.mod_eq_of_lt hw
  have h2 : readBytes s.m_PaddingBuffer 0 64 = .ok (s.m_PaddingBuffer.take 64) := by
    rw [readBytes_ok _ _ _ (by omega)]; simp
  simp only [BufferSource.getNextMessageBlock, h1, h, if_false, hst, h2, bind, Except.bind, pure,
    Except.pure]

theorem getNext_padded1024And512Read (s : BufferSource) (mBlock : MessageBlock)
    (h : ¬ s.m_BitsRead + 512 ≤ s.m_BufferSize) (hw : s.m_BitsRead + 512 < 2 ^ 64)
    (hst : s.m_Status = psPadded1024And512Read) (hfl : 128 ≤ s.m_PaddingBuffer.length) :
    s.getNextMessageBlock mBlock = .ok (true,
      blockOfBytes ((s.m_PaddingBuffer.drop 64).take 64),
      { s with m_Status := psPaddedAndAllRead, m_BitsRead := s.m_BitsRead + 512 }) := by
  have h1 : (s.m_BitsRead + 512) % 2 ^ 64 = s.m_BitsRead + 512 := Nat.mod_eq_of_lt hw
  have h2 : readBytes s.m_PaddingBuffer 64 64 = .ok ((s.m_PaddingBuffer.drop 64).take 64) :=
    readBytes_ok _ _ _ (by omega)
  simp only [BufferSource.getNextMessageBlock, h1, h, if_false, hst, h2, bind, Except.bind, pure,
    Except.pure]

theorem getNext_allRead (s : BufferSource) (mBlock : MessageBlock)
    (h : ¬ (s.m_BitsRead + 512) % 2 ^ 64 ≤ s.m_BufferSize)
    (hst : s.m_Status = psPaddedAndAllRead) :
    s.getNextMessageBlock mBlock = .ok (false, mBlock, s) := by
  simp only [BufferSource.getNextMessageBlock, h, if_false, hst, pure, Except.pure]

/-- A call that returns false changes neither the source nor the caller's block, and
happens only with the payload test failed and all padding read. -/
theorem getNext_false (s s' : BufferSource) (mBlock mBlock' : MessageBlock)
    (h : s.getNextMessageBlock mBlock = .ok (false, mBlock', s')) :
    s' = s ∧ mBlock' = mBlock ∧ s.m_Status = psPaddedAndAllRead ∧
      ¬ (s.m_BitsRead + 512) % 2 ^ 64 ≤ s.m_BufferSize := by
  unfold BufferSource.getNextMessageBlock at h
  split at h
  · cases hr : readBytes s.m_BufferPointer (s.m_BitsRead / 8) 64 <;>
      simp [hr, bind, Except.bind, pure, Except.pure] at h
  · rename_i hp
    split at h
    · cases hr : readBytes s.m_PaddingBuffer 0 64 <;>
        simp [hr, bind, Except.bind, pure, Except.pure] at h
    · cases hr : readBytes s.m_PaddingBuffer 0 64 <;>
        simp [hr, bind, Except.bind, pure, Except.pure] at h
    · cases hr : readBytes s.m_PaddingBuffer 64 64 <;>
        simp [hr, bind, Except.bind, pure, Except.pure] at h
    · rename_i hst
      simp only [pure, Except.pure, Except.ok.injEq, Prod.mk.injEq, true_and] at h
      exact ⟨h.2.symm, h.1.symm, hst, hp⟩
    · simp [throw, throwThe, MonadExceptOf.throw] at h


/-! ## Sources a caller can reach -/

/-- What a call does to a well-formed source: it returns normally, keeps the
source well-formed, leaves both buffers and the byte count alone and does not move
the status backwards. -/
theorem getNext_wellFormed (s : BufferSource) (b : MessageBlock) (h : WellFormed s) :
    ∃ r b' s', s.getNextMessageBlock b = .ok (r, b', s') ∧ WellFormed s' ∧
      s'.m_PaddingBuffer = s.m_PaddingBuffer ∧ s'.m_BufferPointer = s.m_BufferPointer ∧
      s'.m_BufferSize = s.m_BufferSize ∧ s.m_Status.rank ≤ s'.m_Status.rank := by
  obtain ⟨h1, h2, h3, h4, h5, h6, h7, h8, h9⟩ := h
  by_cases hp : s.m_BitsRead + 512 ≤ s.m_BufferSize
  · refine ⟨_, _, _, getNext_payload s b hp h1 (by omega),
      ⟨h1, h2, h3, h4, h5, h6, fun _ => hp, fun _ => ?_, ?_⟩, rfl, rfl, rfl, le_refl _⟩
    · show s.m_BitsRead + 512 ≤ s.m_BufferSize + 512; omega
    · show s.m_BitsRead + 512 ≤ s.m_BufferSize + 1024; omega
  · cases hst : s.m_Status with
    | psUnpadded => exact absurd hst h3
    | psPadded512 =>
      have hb := h7 (Or.inl hst)
      have hf := h4 hst
      refine ⟨_, _, _, getNext_padded512 s b hp (by omega) hst (by omega),
        ⟨h1, h2, ?_, ?_, ?_, ?_, ?_, ?_, ?_⟩, rfl, rfl, rfl, by simp [PaddingStatus.rank]⟩
      all_goals first
        | (show s.m_BitsRead + 512 ≤ s.m_BufferSize + 1024; omega)
        | (intro hc; simp at hc)
    | psPadded1024 =>
      have hb := h7 (Or.inr hst)
      have hf := h5 hst
      refine ⟨_, _, _, getNext_padded1024 s b hp (by omega) hst (by omega),
        ⟨h1, h2, ?_, ?_, ?_, ?_, ?_, ?_, ?_⟩, rfl, rfl, rfl, by simp [PaddingStatus.rank]⟩
      all_goals first
        | (show s.m_BitsRead + 512 ≤ s.m_BufferSize + 1024; omega)
        | (intro _; show s.m_BitsRead + 512 ≤ s.m_BufferSize + 512; omega)
        | (intro _; exact hf)
        | (intro hc; simp at hc)
    | psPadded1024And512Read =>
      have hb := h8 hst
      have hf := h6 hst
      refine ⟨_, _, _, getNext_padded1024And512Read s b hp (by omega) hst (by omega),
        ⟨h1, h2, ?_, ?_, ?_, ?_, ?_, ?_, ?_⟩, rfl, rfl, rfl, by simp [PaddingStatus.rank]⟩
      all_goals first
        | (show s.m_BitsRead + 512 ≤ s.m_BufferSize + 1024; omega)
        | (intro hc; simp at hc)
    | psPaddedAndAllRead =>
      refine ⟨_, _, _, getNext_allRead s b ?_ hst,
        ⟨h1, h2, h3, h4, h5, h6, h7, h8, h9⟩, rfl, rfl, rfl, by rw [hst]⟩
      rw [Nat.mod_eq_of_lt (by omega)]; exact hp

theorem construct_wellFormed (data : List Nat) (n : Nat) (hn : n < 2 ^ 64)
    (hlen : bufferSize n ≤ data.length) :
    WellFormed
      { m_BitsRead := 0
        m_PaddingBuffer := paddingFrame data (bufferSize n)
        m_Status := frameStatus (bufferSize n)
        m_BufferPointer := data
        m_BufferSize := bufferSize n } := by
  have hfl := length_paddingFrame data (bufferSize n) (Or.inr hlen)
  refine ⟨hlen, bufferSize_le n hn, ?_, ?_, ?_, ?_, ?_, ?_, ?_⟩ <;>
    simp only [hfl, frameStatus, frameSize] <;> first | (split <;> simp) | omega

theorem reachable_wellFormed {s0 s : BufferSource} (h0 : WellFormed s0) (h : Reachable s0 s) :
    WellFormed s ∧ s.m_PaddingBuffer = s0.m_PaddingBuffer ∧
      s.m_BufferPointer = s0.m_BufferPointer ∧ s.m_BufferSize = s0.m_BufferSize := by
  induction h with
  | init => exact ⟨h0, rfl, rfl, rfl⟩
  | pull hr hstep ih =>
    rename_i s1 s2 b1 b2 r
    obtain ⟨hw, e1, e2, e3⟩ := ih
    obtain ⟨r', b', s', hs, hw', f1, f2, f3, _⟩ := getNext_wellFormed s1 b1 hw
    rw [hs] at hstep
    simp only [Except.ok.injEq, Prod.mk.injEq] at hstep
    obtain ⟨_, _, rfl⟩ := hstep
    exact ⟨hw', f1.trans e1, f2.trans e2, f3.trans e3⟩


/-! ## Draining a constructed source -/

theorem pullAll_succ_true (fuel : Nat) (s s' : BufferSource) (b b' : MessageBlock)
    (h : s.getNextMessageBlock b = .ok (true, b', s')) :
    pullAll (fuel + 1) s b = (pullAll fuel s' b').cons b' := by
  simp only [pullAll, h]

theorem pullAll_succ_false (fuel : Nat) (s s' : BufferSource) (b b' : MessageBlock)
    (h : s.getNextMessageBlock b = .ok (false, b', s')) :
    pullAll (fuel + 1) s b = Drain.blocks [] := by
  simp only [pullAll, h]

theorem pullAll_padding (fuel : Nat) (s : BufferSource) (b : MessageBlock)
    (h : ¬ s.m_BitsRead + 512 ≤ s.m_BufferSize) (hw : s.m_BitsRead + 1536 < 2 ^ 64)
    (hst : (s.m_Status = psPadded512 ∧ s.m_PaddingBuffer.length = 64) ∨
           (s.m_Status = psPadded1024 ∧ s.m_PaddingBuffer.length = 128)) :
    pullAll (fuel + 3) s b = Drain.blocks (paddingBlocks s.m_PaddingBuffer) := by
  rcases hst with ⟨hst, hfl⟩ | ⟨hst, hfl⟩
  · rw [pullAll_succ_true _ _ _ _ _ (getNext_padded512 s b h (by omega) hst (by omega))]
    rw [pullAll_succ_false (fuel + 1) _ _ _ _ (getNext_allRead _ _ (by
      show ¬ (s.m_BitsRead + 512 + 512) % 2 ^ 64 ≤ s.m_BufferSize
      rw [Nat.mod_eq_of_lt (by omega)]; omega) rfl)]
    simp [paddingBlocks, hfl, Drain.cons]
  · rw [pullAll_succ_true _ _ _ _ _ (getNext_padded1024 s b h (by omega) hst (by omega))]
    rw [pullAll_succ_true (fuel + 1) _ _ _ _ (getNext_padded1024And512Read _ _
      (by show ¬ s.m_BitsRead + 512 + 512 ≤ s.m_BufferSize; omega)
      (by show s.m_BitsRead + 512 + 512 < 2 ^ 64; omega) rfl
      (by show 128 ≤ s.m_PaddingBuffer.length; omega))]
    rw [pullAll_succ_false fuel _ _ _ _ (getNext_allRead _ _ (by
      show ¬ (s.m_BitsRead + 512 + 512 + 512) % 2 ^ 64 ≤ s.m_BufferSize
      rw [Nat.mod_eq_of_lt (by omega)]; omega) rfl)]
    simp [paddingBlocks, hfl, Drain.cons]

theorem pullAll_from (j : Nat) : ∀ (fuel k : Nat) (s : BufferSource) (b : MessageBlock),
    s.m_BitsRead = 512 * k → 512 * (k + j) ≤ s.m_BufferSize →
    s.m_BufferSize < 512 * (k + j + 1) → s.m_BufferSize ≤ s.m_BufferPointer.length →
    s.m_BufferSize ≤ 2 ^ 61 →
    ((s.m_Status = psPadded512 ∧ s.m_PaddingBuffer.length = 64) ∨
      (s.m_Status = psPadded1024 ∧ s.m_PaddingBuffer.length = 128)) →
    pullAll (fuel + j + 3) s b = Drain.blocks
      ((List.range' k j).map (fun i => blockOfBytes ((s.m_BufferPointer.drop (64 * i)).take 64))
        ++ paddingBlocks s.m_PaddingBuffer) := by
  induction j with
  | zero =>
    intro fuel k s b hk hlo hhi hsz hB hst
    rw [Nat.add_zero, pullAll_padding fuel s b (by omega) (by omega) hst]
    simp
  | succ j ih =>
    intro fuel k s b hk hlo hhi hsz hB hst
    have hstep := getNext_payload s b (by omega) hsz (by omega)
    have h8 : s.m_BitsRead / 8 = 64 * k := by omega
    rw [show fuel + (j + 1) + 3 = (fuel + j + 3) + 1 by omega,
      pullAll_succ_true _ _ _ _ _ hstep,
      ih fuel (k + 1) { s with m_BitsRead := s.m_BitsRead + 512 } _
        (by show s.m_BitsRead + 512 = 512 * (k + 1); omega)
        (by show 512 * (k + 1 + j) ≤ s.m_BufferSize; omega)
        (by show s.m_BufferSize < 512 * (k + 1 + j + 1); omega) hsz hB hst]
    simp [List.range'_succ, h8, Drain.cons]

theorem construct_pullAll (data : List Nat) (n : Nat) (hn : n < 2 ^ 64)
    (hlen : bufferSize n ≤ data.length) (fuel : Nat) (b : MessageBlock) :
    ∃ s0, BufferSource.construct data n = .ok s0 ∧
      pullAll (fuel + bufferSize n / 512 + 3) s0 b = Drain.blocks
        (payloadBlocks data (bufferSize n / 512) ++
          paddingBlocks (paddingFrame data (bufferSize n))) := by
  refine ⟨_, construct_eq data n hn hlen, ?_⟩
  have hB := bufferSize_le n hn
  have hfl := length_paddingFrame data (bufferSize n) (Or.inr hlen)
  rw [pullAll_from (bufferSize n / 512) fuel 0 _ b rfl
    (by show 512 * (0 + bufferSize n / 512) ≤ bufferSize n; omega)
    (by show bufferSize n < 512 * (0 + bufferSize n / 512 + 1); omega) hlen hB
    (by
      show (frameStatus (bufferSize n) = psPadded512 ∧
          (paddingFrame data (bufferSize n)).length = 64) ∨
        (frameStatus (bufferSize n) = psPadded1024 ∧
          (paddingFrame data (bufferSize n)).length = 128)
      rw [hfl]; unfold frameStatus frameSize; split <;> simp)]
  simp [payloadBlocks, List.range_eq_range']


/-! ## Shape of the padding frame and of its last block -/

theorem frame_shape (tail lb : List Nat) (z : Nat) (hlb : lb.length = 8) :
    (tail ++ 128 :: (List.replicate z 0 ++ lb)).take tail.length = tail ∧
    (tail ++ 128 :: (List.replicate z 0 ++ lb))[tail.length]? = some 128 ∧
    (∀ i, tail.length < i → i + 8 < (tail ++ 128 :: (List.replicate z 0 ++ lb)).length →
      (tail ++ 128 :: (List.replicate z 0 ++ lb))[i]? = some 0) ∧
    (((tail ++ 128 :: (List.replicate z 0 ++ lb)).take
      ((tail ++ 128 :: (List.replicate z 0 ++ lb)).length - 8)).drop tail.length).count 128
        = 1 ∧
    (tail ++ 128 :: (List.replicate z 0 ++ lb)).drop
      ((tail ++ 128 :: (List.replicate z 0 ++ lb)).length - 8) = lb := by
  refine ⟨by simp, ?_, ?_, ?_, ?_⟩
  · rw [List.getElem?_append_right (le_refl _)]; simp
  · intro i hi hlen
    simp only [List.length_append, List.length_cons, List.length_replicate, hlb] at hlen
    rw [List.getElem?_append_right (by omega)]
    obtain ⟨k, hk⟩ : ∃ k, i - tail.length = k + 1 := ⟨i - tail.length - 1, by omega⟩
    rw [hk, List.getElem?_cons_succ, List.getElem?_append_left (by simp; omega)]
    rw [List.getElem?_replicate, if_pos (by omega)]
  · have e : (tail ++ 128 :: (List.replicate z 0 ++ lb)).length - 8 = tail.length + (1 + z) := by
      simp only [List.length_append, List.length_cons, List.length_replicate, hlb]; omega
    rw [e, List.take_append, List.drop_append_of_le_length (by simp), List.drop_length,
      List.nil_append]
    rw [show 1 + z = z + 1 by omega, List.take_succ_cons, List.take_append_of_le_length (by simp),
      List.take_replicate]
    simp [List.count_cons, List.count_replicate]
  · have e : (tail ++ 128 :: (List.replicate z 0 ++ lb)).length - 8 = tail.length + (1 + z) := by
      simp only [List.length_append, List.length_cons, List.length_replicate, hlb]; omega
    rw [e, List.drop_append, show 1 + z = z + 1 by omega, List.drop_succ_cons,
      List.drop_append_of_le_length (by simp)]
    simp

theorem tail_take (data : List Nat) (L r : Nat) (hL : data.length = L) (hr : r ≤ L) :
    (data.drop (L - r)).take r = data.drop (L - r) :=
  List.take_of_length_le (by rw [List.length_drop]; omega)

theorem valueBE_beBytes64 (v : Nat) (hv : v < 2 ^ 64) : valueBE (beBytes64 v) = v := by
  rw [beBytes64_eq]
  simp only [valueBE, List.foldl_cons, List.foldl_nil, byteOf]
  norm_num
  have d2 : v / 65536 = v / 256 / 256 := by rw [Nat.div_div_eq_div_mul]
  have d3 : v / 16777216 = v / 256 / 256 / 256 := by
    rw [Nat.div_div_eq_div_mul, Nat.div_div_eq_div_mul]
  have d4 : v / 4294967296 = v / 256 / 256 / 256 / 256 := by
    rw [Nat.div_div_eq_div_mul, Nat.div_div_eq_div_mul, Nat.div_div_eq_div_mul]
  have d5 : v / 1099511627776 = v / 256 / 256 / 256 / 256 / 256 := by
    rw [Nat.div_div_eq_div_mul, Nat.div_div_eq_div_mul, Nat.div_div_eq_div_mul,
      Nat.div_div_eq_div_mul]
  have d6 : v / 281474976710656 = v / 256 / 256 / 256 / 256 / 256 / 256 := by
    rw [Nat.div_div_eq_div_mul, Nat.div_div_eq_div_mul, Nat.div_div_eq_div_mul,
      Nat.div_div_eq_div_mul, Nat.div_div_eq_div_mul]
  have d7 : v / 72057594037927936 = v / 256 / 256 / 256 / 256 / 256 / 256 / 256 := by
    rw [Nat.div_div_eq_div_mul, Nat.div_div_eq_div_mul, Nat.div_div_eq_div_mul,
      Nat.div_div_eq_div_mul, Nat.div_div_eq_div_mul, Nat.div_div_eq_div_mul]
  rw [d2, d3, d4, d5, d6, d7]
  omega

/-- The frame of a constructed source, split into its parts, for a buffer of exactly
the declared number of bytes. -/
theorem construct_frame (data : List Nat) (n : Nat) (hn : n < 2 ^ 64)
    (hlen : bufferSize n ≤ data.length) :
    ∃ s tail z, BufferSource.construct data n = .ok s ∧
      s.m_BufferSize = bufferSize n ∧ s.m_Status = frameStatus (bufferSize n) ∧
      s.m_BitsRead = 0 ∧ s.m_BufferPointer = data ∧
      tail = (data.drop (bufferSize n - bufferSize n % 64)).take (bufferSize n % 64) ∧
      tail.length = bufferSize n % 64 ∧
      s.m_PaddingBuffer = tail ++ 128 :: (List.replicate z 0 ++
        beBytes64 ((bufferSize n * 8) % 2 ^ 64)) ∧
      s.m_PaddingBuffer.length = frameSize (bufferSize n) := by
  refine ⟨_, _, _, construct_eq data n hn hlen, rfl, rfl, rfl, rfl, rfl, ?_, rfl,
    length_paddingFrame data _ (Or.inr hlen)⟩
  rw [List.length_take, List.length_drop]
  have := Nat.mod_le (bufferSize n) 64
  omega

theorem reachable_of_exhausted {s s2 : BufferSource} (hst : s.m_Status = psPaddedAndAllRead)
    (hp : ¬ (s.m_BitsRead + 512) % 2 ^ 64 ≤ s.m_BufferSize) (h : Reachable s s2) : s2 = s := by
  induction h with
  | init => rfl
  | pull hr hstep ih =>
    rename_i s1 s3 b1 b3 r
    subst ih
    rw [getNext_allRead _ b1 hp hst] at hstep
    simp only [Except.ok.injEq, Prod.mk.injEq] at hstep
    exact hstep.2.2.symm

/-- The last block read from the frame of a constructed source is read from 56
bytes followed by the eight big-endian bytes of the stored length. -/
theorem paddingBlocks_last (data : List Nat) (B : Nat) (hB : B ≤ data.length) :
    ∃ pre, pre.length = 56 ∧
      (paddingBlocks (paddingFrame data B)).getLast?
        = some (blockOfBytes (pre ++ beBytes64 ((B * 8) % 2 ^ 64))) := by
  have hfl := length_paddingFrame data B (Or.inr hB)
  have hr : B % 64 < 64 := Nat.mod_lt _ (by norm_num)
  have hm := Nat.mod_le B 64
  obtain ⟨P, hP⟩ : ∃ P, P = (data.drop (B - B % 64)).take (B % 64) ++
      128 :: List.replicate (frameSize B - 9 - B % 64) 0 := ⟨_, rfl⟩
  have hframe : paddingFrame data B = P ++ beBytes64 ((B * 8) % 2 ^ 64) := by
    rw [hP]; simp [paddingFrame]
  have hPl : P.length = frameSize B - 8 := by
    rw [hP]
    simp only [List.length_append, List.length_cons, List.length_take, List.length_drop,
      List.length_replicate]
    unfold frameSize
    split <;> omega
  by_cases h56 : 56 ≤ B % 64
  · have hF : frameSize B = 128 := by simp [frameSize, h56]
    rw [hF] at hfl hPl
    refine ⟨P.drop 64, by rw [List.length_drop, hPl], ?_⟩
    have e : ((paddingFrame data B).drop 64).take 64
        = P.drop 64 ++ beBytes64 ((B * 8) % 2 ^ 64) := by
      rw [hframe, List.drop_append_of_le_length (by omega)]
      exact List.take_of_length_le (by simp [hPl, length_beBytes64])
    simp [paddingBlocks, hfl, e]
  · have hF : frameSize B = 64 := by simp [frameSize, h56]
    rw [hF] at hfl hPl
    refine ⟨P, hPl, ?_⟩
    have e : (paddingFrame data B).take 64 = P ++ beBytes64 ((B * 8) % 2 ^ 64) := by
      rw [← hframe]; exact List.take_of_length_le (by omega)
    simp [paddingBlocks, hfl, e]

/-- Words of a block read from 56 bytes followed by the big-endian length field. -/
theorem trailer_block_words (pre : List Nat) (hpre : pre.length = 56) (v : Nat)
    (hv : v < 2 ^ 64) :
    (blockOfBytes (pre ++ beBytes64 v)).words.length = 16 ∧
    (blockOfBytes (pre ++ beBytes64 v)).words[14]? = some (v / 2 ^ 32) ∧
    (blockOfBytes (pre ++ beBytes64 v)).words[15]? = some (v % 2 ^ 32) := by
  have hl : ((loadWords pre).map reverse32).length = 14 := by
    rw [List.length_map, length_loadWords, hpre]
  have hw : (blockOfBytes (pre ++ beBytes64 v)).words
      = (loadWords pre).map reverse32 ++ [v / 2 ^ 32, v % 2 ^ 32] := by
    simp only [blockOfBytes]
    rw [loadWords_append pre _ (by rw [hpre]; decide), List.map_append, trailer_words v hv]
  rw [hw]
  refine ⟨by rw [List.length_append, hl]; rfl, ?_, ?_⟩
  · rw [List.getElem?_append_right (by omega), hl]; rfl
  · rw [List.getElem?_append_right (by omega), hl]; rfl

/-! ## Status and cursor along any sequence of calls -/

/-- A call that returns normally keeps a padded status padded and keeps the cursor
a multiple of 512 (also when the 64-bit addition wraps). -/
theorem getNext_preserves (s s' : BufferSource) (b b' : MessageBlock) (r : Bool)
    (h : s.getNextMessageBlock b = .ok (r, b', s')) :
    (s.m_Status ≠ psUnpadded → s'.m_Status ≠ psUnpadded) ∧
    (512 ∣ s.m_BitsRead → 512 ∣ s'.m_BitsRead) := by
  have hdvd : 512 ∣ s.m_BitsRead → 512 ∣ (s.m_BitsRead + 512) % 2 ^ 64 := by
    intro hd; omega
  unfold BufferSource.getNextMessageBlock at h
  split at h
  · cases hr : readBytes s.m_BufferPointer (s.m_BitsRead / 8) 64 <;>
      simp only [hr, bind, Except.bind, pure, Except.pure, Except.ok.injEq, Prod.mk.injEq,
        reduceCtorEq] at h
    obtain ⟨-, -, rfl⟩ := h
    exact ⟨fun hs => hs, hdvd⟩
  · split at h
    · cases hr : readBytes s.m_PaddingBuffer 0 64 <;>
        simp only [hr, bind, Except.bind, pure, Except.pure, Except.ok.injEq, Prod.mk.injEq,
          reduceCtorEq] at h
      obtain ⟨-, -, rfl⟩ := h
      exact ⟨fun _ => by simp, hdvd⟩
    · cases hr : readBytes s.m_PaddingBuffer 0 64 <;>
        simp only [hr, bind, Except.bind, pure, Except.pure, Except.ok.injEq, Prod.mk.injEq,
          reduceCtorEq] at h
      obtain ⟨-, -, rfl⟩ := h
      exact ⟨fun _ => by simp, hdvd⟩
    · cases hr : readBytes s.m_PaddingBuffer 64 64 <;>
        simp only [hr, bind, Except.bind, pure, Except.pure, Except.ok.injEq, Prod.mk.injEq,
          reduceCtorEq] at h
      obtain ⟨-, -, rfl⟩ := h
      exact ⟨fun _ => by simp, hdvd⟩
    · simp only [pure, Except.pure, Except.ok.injEq, Prod.mk.injEq] at h
      obtain ⟨-, -, rfl⟩ := h
      exact ⟨fun hs => hs, fun hd => hd⟩
    · simp [throw, throwThe, MonadExceptOf.throw] at h

/-- The only way for a call to throw is the branch of the status `psUnpadded`. -/
theorem getNext_thrown (s : BufferSource) (b : MessageBlock) (c : Int)
    (h : s.getNextMessageBlock b = .error (Fault.thrown c)) :
    s.m_Status = psUnpadded ∧ c = 42 := by
  unfold BufferSource.getNextMessageBlock at h
  have hread : ∀ buf off len, readBytes buf off len ≠ .error (Fault.thrown c) := by
    intro buf off len
    unfold readBytes
    split <;> simp
  split at h
  · cases hr : readBytes s.m_BufferPointer (s.m_BitsRead / 8) 64 with
    | ok v => simp [hr, bind, Except.bind, pure, Except.pure] at h
    | error e =>
      simp only [hr, bind, Except.bind, Except.error.injEq] at h
      exact absurd (h ▸ hr) (hread _ _ _)
  · split at h
    · cases hr : readBytes s.m_PaddingBuffer 0 64 with
      | ok v => simp [hr, bind, Except.bind, pure, Except.pure] at h
      | error e =>
        simp only [hr, bind, Except.bind, Except.error.injEq] at h
        exact absurd (h ▸ hr) (hread _ _ _)
    · cases hr : readBytes s.m_PaddingBuffer 0 64 with
      | ok v => simp [hr, bind, Except.bind, pure, Except.pure] at h
      | error e =>
        simp only [hr, bind, Except.bind, Except.error.injEq] at h
        exact absurd (h ▸ hr) (hread _ _ _)
    · cases hr : readBytes s.m_PaddingBuffer 64 64 with
      | ok v => simp [hr, bind, Except.bind, pure, Except.pure] at h
      | error e =>
        simp only [hr, bind, Except.bind, Except.error.injEq] at h
        exact absurd (h ▸ hr) (hread _ _ _)
    · simp [pure, Except.pure] at h
    · rename_i hst
      simp only [throw, throwThe, MonadExceptOf.throw, Except.error.injEq,
        Fault.thrown.injEq] at h
      exact ⟨hst, h.symm⟩

/-- Whatever the buffer and the declared length, a constructor that returns leaves
the cursor at zero and the status at `psPadded512` or `psPadded1024`. -/
theorem construct_status (data : List Nat) (n : Nat) (s0 : BufferSource)
    (h : BufferSource.construct data n = .ok s0) :
    (s0.m_Status = psPadded512 ∨ s0.m_Status = psPadded1024) ∧ s0.m_BitsRead = 0 := by
  unfold BufferSource.construct at h
  simp only [bind, Except.bind, pure, Except.pure] at h
  repeat' split at h
  all_goals cases h
  all_goals simp

theorem reachable_padded {s0 s : BufferSource} (h0 : s0.m_Status ≠ psUnpadded)
    (hd : 512 ∣ s0.m_BitsRead) (h : Reachable s0 s) :
    s.m_Status ≠ psUnpadded ∧ 512 ∣ s.m_BitsRead := by
  induction h with
  | init => exact ⟨h0, hd⟩
  | pull hr hstep ih =>
    obtain ⟨p1, p2⟩ := getNext_preserves _ _ _ _ _ hstep
    exact ⟨p1 ih.1, p2 ih.2⟩

/-! ## Payload blocks -/

/-- On bytes (values below 256) the words left in a block are the big-endian
reading of the bytes copied. -/
theorem blockOfBytes_wordsBE (bytes : List Nat) (h : ∀ x ∈ bytes, x < 256) :
    blockOfBytes bytes = ⟨wordsBE bytes⟩ := by
  unfold blockOfBytes
  congr 1
  induction bytes using loadWords.induct with
  | case1 b0 b1 b2 b3 tl ih =>
    have h0 : b0 < 256 := h b0 (by simp)
    have h1 : b1 < 256 := h b1 (by simp)
    have h2 : b2 < 256 := h b2 (by simp)
    have h3 : b3 < 256 := h b3 (by simp)
    have ht : ∀ x ∈ tl, x < 256 := fun x hx => h x (by simp [hx])
    simp only [loadWords, wordsBE, List.map_cons, reverse32_wordLE b0 b1 b2 b3 h0 h1 h2 h3,
      ih ht]
  | case2 l hl =>
    match l, hl with
    | [], _ => simp [loadWords, wordsBE]
    | [_], _ => simp [loadWords, wordsBE]
    | [_, _], _ => simp [loadWords, wordsBE]
    | [_, _, _], _ => simp [loadWords, wordsBE]
    | _ :: _ :: _ :: _ :: _, hl => exact absurd rfl (hl _ _ _ _ _)

theorem payloadBlocks_get (data : List Nat) (m k : Nat) (hk : k < m) :
    (payloadBlocks data m)[k]? = some (blockOfBytes ((data.drop (64 * k)).take 64)) := by
  simp [payloadBlocks, List.getElem?_range, hk]

theorem length_payloadBlocks (data : List Nat) (m : Nat) :
    (payloadBlocks data m).length = m := by
  simp [payloadBlocks]

theorem length_paddingBlocks (frame : List Nat) :
    (paddingBlocks frame).length = if frame.length = 128 then 2 else 1 := by
  unfold paddingBlocks; split <;> rfl

/-! ## The claims -/

set_option maxRecDepth 100000

/-- C1, evaluated where the code departs from it: for the 64-byte buffer of bytes
`0x61`, declared with 512 bits, the caller's loop receives a single block, the
padding frame, although the padded message of the specification has two blocks,
the payload block first; and for a 119-byte buffer it receives one block where
the specification has two. -/
theorem payload_block_skipped :
    (∃ s0, BufferSource.construct (List.replicate 64 0x61) 512 = .ok s0 ∧
      pullAll 8 s0 ⟨[]⟩ = Drain.blocks
        [⟨[0x80000000, 0, 0, 0, 0, 0, 0, 0, 0, 0, 0, 0, 0, 0, 0, 0x200]⟩]) ∧
    fipsBlocks (List.replicate 64 0x61) =
      [⟨List.replicate 16 0x61616161⟩,
       ⟨[0x80000000, 0, 0, 0, 0, 0, 0, 0, 0, 0, 0, 0, 0, 0, 0, 0x200]⟩] ∧
    (∃ s0 bs, BufferSource.construct (List.replicate 119 0x61) 952 = .ok s0 ∧
      pullAll 8 s0 ⟨[]⟩ = Drain.blocks bs ∧ bs.length = 1) ∧
    (fipsBlocks (List.replicate 119 0x61)).length = 2 := by
  refine ⟨⟨_, rfl, ?_⟩, ?_, ⟨_, _, rfl, rfl, ?_⟩, ?_⟩ <;> decide

/-- C2: for every buffer of `L` bytes the padding frame built by the constructor
starts with the last `L mod 64` payload bytes (those from offset `L - L mod 64`),
holds the stop byte `0x80` at index `L mod 64`, holds zero at every index after
the stop byte and before the final 8 length bytes, and so contains the stop byte
exactly once between the copied data and the length field. -/
theorem padding_frame_layout (data : List Nat) (h : 8 * data.length < 2 ^ 64) :
    ∃ s, BufferSource.construct data (8 * data.length) = .ok s ∧
      s.m_PaddingBuffer.take (data.length % 64)
        = data.drop (data.length - data.length % 64) ∧
      s.m_PaddingBuffer[data.length % 64]? = some 0x80 ∧
      (∀ i, data.length % 64 < i → i + 8 < s.m_PaddingBuffer.length →
        s.m_PaddingBuffer[i]? = some 0) ∧
      ((s.m_PaddingBuffer.take (s.m_PaddingBuffer.length - 8)).drop
        (data.length % 64)).count 0x80 = 1 := by
  obtain ⟨s, tail, z, hc, -, -, -, -, htail, htl, hframe, -⟩ :=
    construct_frame data (8 * data.length) h (by rw [bufferSize_bytes])
  rw [bufferSize_bytes] at htail htl
  rw [tail_take data _ _ rfl (Nat.mod_le _ _)] at htail
  obtain ⟨f1, f2, f3, f4, -⟩ := frame_shape tail (beBytes64 ((bufferSize (8 * data.length) * 8)
    % 2 ^ 64)) z (length_beBytes64 _)
  rw [← hframe, htl] at f1 f2 f3 f4
  exact ⟨s, hc, by rw [f1, htail], f2, f3, f4⟩

/-- Witness for `padding_frame_layout`: the three-byte message "abc". -/
theorem padding_frame_layout_witness :
    8 * [0x61, 0x62, 0x63].length < 2 ^ 64 ∧
    ∃ s, BufferSource.construct [0x61, 0x62, 0x63] (8 * [0x61, 0x62, 0x63].length) = .ok s ∧
      s.m_PaddingBuffer.take ([0x61, 0x62, 0x63].length % 64)
        = [0x61, 0x62, 0x63].drop ([0x61, 0x62, 0x63].length - [0x61, 0x62, 0x63].length % 64) ∧
      s.m_PaddingBuffer[[0x61, 0x62, 0x63].length % 64]? = some 0x80 ∧
      (∀ i, [0x61, 0x62, 0x63].length % 64 < i → i + 8 < s.m_PaddingBuffer.length →
        s.m_PaddingBuffer[i]? = some 0) ∧
      ((s.m_PaddingBuffer.take (s.m_PaddingBuffer.length - 8)).drop
        ([0x61, 0x62, 0x63].length % 64)).count 0x80 = 1 :=
  ⟨by decide, padding_frame_layout [0x61, 0x62, 0x63] (by decide)⟩

/-- C3: for a buffer of `L` bytes the constructor allocates a 128-byte frame and
sets `psPadded1024` exactly when `(8 L) mod 512 > 440`, else a 64-byte frame and
`psPadded512`; the first case is `L mod 64 ≥ 56`, the second `L mod 64 ≤ 55`; in
both the copied data (indices below `L mod 64`), the stop byte (index `L mod 64`)
and the length field (the last 8 bytes) lie inside the frame and do not overlap. -/
theorem frame_size_threshold (data : List Nat) (h : 8 * data.length < 2 ^ 64) :
    ∃ s, BufferSource.construct data (8 * data.length) = .ok s ∧
      ((8 * data.length) % 512 > 440 →
        s.m_PaddingBuffer.length = 128 ∧ s.m_Status = psPadded1024) ∧
      (¬ (8 * data.length) % 512 > 440 →
        s.m_PaddingBuffer.length = 64 ∧ s.m_Status = psPadded512) ∧
      ((8 * data.length) % 512 > 440 ↔ 56 ≤ data.length % 64) ∧
      (¬ (8 * data.length) % 512 > 440 ↔ data.length % 64 ≤ 55) ∧
      data.length % 64 + 1 + 8 ≤ s.m_PaddingBuffer.length ∧
      s.m_PaddingBuffer.take (data.length % 64)
        = data.drop (data.length - data.length % 64) ∧
      s.m_PaddingBuffer[data.length % 64]? = some 0x80 ∧
      s.m_PaddingBuffer.drop (s.m_PaddingBuffer.length - 8) = beBytes64 (8 * data.length) := by
  obtain ⟨s, tail, z, hc, -, hst, -, -, htail, htl, hframe, hfl⟩ :=
    construct_frame data (8 * data.length) h (by rw [bufferSize_bytes])
  rw [bufferSize_bytes] at htail htl hst hfl hframe
  rw [tail_take data _ _ rfl (Nat.mod_le _ _)] at htail
  obtain ⟨f1, f2, -, -, f5⟩ := frame_shape tail (beBytes64 ((data.length * 8) % 2 ^ 64)) z
    (length_beBytes64 _)
  rw [← hframe, htl] at f1 f2
  rw [← hframe] at f5
  have hv : (data.length * 8) % 2 ^ 64 = 8 * data.length := by
    rw [Nat.mod_eq_of_lt (by omega)]; omega
  rw [hv] at f5
  refine ⟨s, hc, ?_, ?_, by omega, by omega, ?_, by rw [f1, htail], f2, f5⟩
  · intro hgt
    have h56 : 56 ≤ data.length % 64 := by omega
    rw [hfl, hst]; simp [frameSize, frameStatus, h56]
  · intro hgt
    have h56 : ¬ 56 ≤ data.length % 64 := by omega
    rw [hfl, hst]; simp [frameSize, frameStatus, h56]
  · rw [hfl]; unfold frameSize; split <;> omega

/-- Witness for `frame_size_threshold`: 56 bytes, the first length that needs two
frames. -/
theorem frame_size_threshold_witness :
    8 * (List.replicate 56 0x61).length < 2 ^ 64 ∧
    ∃ s, BufferSource.construct (List.replicate 56 0x61) (8 * (List.replicate 56 0x61).length)
        = .ok s ∧
      ((8 * (List.replicate 56 0x61).length) % 512 > 440 →
        s.m_PaddingBuffer.length = 128 ∧ s.m_Status = psPadded1024) ∧
      (¬ (8 * (List.replicate 56 0x61).length) % 512 > 440 →
        s.m_PaddingBuffer.length = 64 ∧ s.m_Status = psPadded512) ∧
      ((8 * (List.replicate 56 0x61).length) % 512 > 440 ↔
        56 ≤ (List.replicate 56 0x61).length % 64) ∧
      (¬ (8 * (List.replicate 56 0x61).length) % 512 > 440 ↔
        (List.replicate 56 0x61).length % 64 ≤ 55) ∧
      (List.replicate 56 0x61).length % 64 + 1 + 8 ≤ s.m_PaddingBuffer.length ∧
      s.m_PaddingBuffer.take ((List.replicate 56 0x61).length % 64)
        = (List.replicate 56 0x61).drop
            ((List.replicate 56 0x61).length - (List.replicate 56 0x61).length % 64) ∧
      s.m_PaddingBuffer[(List.replicate 56 0x61).length % 64]? = some 0x80 ∧
      s.m_PaddingBuffer.drop (s.m_PaddingBuffer.length - 8)
        = beBytes64 (8 * (List.replicate 56 0x61).length) :=
  ⟨by decide, frame_size_threshold (List.replicate 56 0x61) (by decide)⟩

/-- C4: for every buffer of `L` bytes declared with `n = 8 L` bits the caller's loop
ends, delivers at least one block, and the last block delivered carries `n` in its
final 64 bits in big-endian order: word 14 is the high and word 15 the low 32
bits of `n`. -/
theorem final_block_carries_length (data : List Nat) (h : 8 * data.length < 2 ^ 64)
    (fuel : Nat) (b : MessageBlock) :
    ∃ s0 blocks last, BufferSource.construct data (8 * data.length) = .ok s0 ∧
      pullAll (fuel + data.length / 512 + 3) s0 b = Drain.blocks blocks ∧
      blocks.getLast? = some last ∧ last.words.length = 16 ∧
      last.words[14]? = some ((8 * data.length) / 2 ^ 32) ∧
      last.words[15]? = some ((8 * data.length) % 2 ^ 32) := by
  obtain ⟨s0, hc, hp⟩ := construct_pullAll data (8 * data.length) h
    (by rw [bufferSize_bytes]) fuel b
  rw [bufferSize_bytes] at hp
  obtain ⟨pre, hpre, hlast⟩ := paddingBlocks_last data data.length (le_refl _)
  have hv : (data.length * 8) % 2 ^ 64 = 8 * data.length := by
    rw [Nat.mod_eq_of_lt (by omega)]; omega
  rw [hv] at hlast
  obtain ⟨w1, w2, w3⟩ := trailer_block_words pre hpre (8 * data.length) h
  refine ⟨s0, _, _, hc, hp, ?_, w1, w2, w3⟩
  rw [List.getLast?_append, hlast]
  rfl

/-- Witness for `final_block_carries_length`: the three-byte message "abc". -/
theorem final_block_carries_length_witness :
    8 * [0x61, 0x62, 0x63].length < 2 ^ 64 ∧
    ∃ s0 blocks last,
      BufferSource.construct [0x61, 0x62, 0x63] (8 * [0x61, 0x62, 0x63].length) = .ok s0 ∧
      pullAll (0 + [0x61, 0x62, 0x63].length / 512 + 3) s0 ⟨[]⟩ = Drain.blocks blocks ∧
      blocks.getLast? = some last ∧ last.words.length = 16 ∧
      last.words[14]? = some ((8 * [0x61, 0x62, 0x63].length) / 2 ^ 32) ∧
      last.words[15]? = some ((8 * [0x61, 0x62, 0x63].length) % 2 ^ 32) :=
  ⟨by decide, final_block_carries_length [0x61, 0x62, 0x63] (by decide) 0 ⟨[]⟩⟩

/-- C5, as the code has it: the constructor has no failure path for an
overflowing length.  For every declared bit length in `2^64 - 7 .. 2^64 - 1` and
every buffer it completes, with `m_BufferSize = 2^61`, status `psPadded512` and a
64-byte frame that holds the stop byte followed by zeros only: the length field is
zero, because `8 * 2^61` wraps to `0` modulo `2^64`. -/
theorem construct_overflowing_length (data : List Nat) (n : Nat) (hlo : 2 ^ 64 - 7 ≤ n)
    (hhi : n < 2 ^ 64) :
    BufferSource.construct data n = .ok
      { m_BitsRead := 0
        m_PaddingBuffer := 0x80 :: List.replicate 63 0
        m_Status := psPadded512
        m_BufferPointer := data
        m_BufferSize := 2 ^ 61 } := by
  have hB : bufferSize n = 2 ^ 61 := by
    unfold bufferSize; split <;> omega
  rw [construct_eq_of data n hhi (by rw [hB]; left; norm_num), hB]
  have hf : paddingFrame data (2 ^ 61) = 0x80 :: List.replicate 63 0 := by
    have h0 : (2 : Nat) ^ 61 % 64 = 0 := by norm_num
    have hw : ((2 : Nat) ^ 61 * 8) % 2 ^ 64 = 0 := by norm_num
    simp only [paddingFrame, frameSize, h0, hw, List.take_zero, List.nil_append]
    decide
  have hs : frameStatus (2 ^ 61) = psPadded512 := by
    have h0 : (2 : Nat) ^ 61 % 64 = 0 := by norm_num
    simp [frameStatus, h0]
  rw [hf, hs]

/-- Witness for `construct_overflowing_length`: the largest declared length. -/
theorem construct_overflowing_length_witness :
    2 ^ 64 - 7 ≤ 2 ^ 64 - 1 ∧ 2 ^ 64 - 1 < 2 ^ 64 ∧
    BufferSource.construct [0x61] (2 ^ 64 - 1) = .ok
      { m_BitsRead := 0
        m_PaddingBuffer := 0x80 :: List.replicate 63 0
        m_Status := psPadded512
        m_BufferPointer := [0x61]
        m_BufferSize := 2 ^ 61 } :=
  ⟨by decide, by decide, construct_overflowing_length [0x61] (2 ^ 64 - 1) (by decide) (by decide)⟩

/-- C5 as stated fails: for the declared length `2^64 - 1`, inside the range
`2^64 - 7 .. 2^64 - 1`, the constructor reports no error but returns a source in
state `psPadded512` whose byte count is `2^61`. -/
theorem construct_accepts_overflowing_length :
    2 ^ 64 - 7 ≤ 2 ^ 64 - 1 ∧ 2 ^ 64 - 1 < 2 ^ 64 ∧
    ∃ s, BufferSource.construct [] (2 ^ 64 - 1) = .ok s ∧ s.m_Status = psPadded512 ∧
      s.m_BufferSize = 2 ^ 61 :=
  ⟨by decide, by decide, _, rfl, rfl, rfl⟩

/-- C6: a source is single-use.  Once a call of `getNextMessageBlock` has returned
false (which happens in state `psPaddedAndAllRead` only, and changed nothing),
every source reachable by later calls is the same source, so status and cursor
keep their values, and every later call returns false and hands back the
caller's block unchanged.  This holds for every source, constructed ones
included. -/
theorem exhausted_stays_exhausted (s s' : BufferSource) (b b' : MessageBlock)
    (h : s.getNextMessageBlock b = .ok (false, b', s')) :
    s' = s ∧ b' = b ∧ s.m_Status = psPaddedAndAllRead ∧
      ∀ s2, Reachable s' s2 →
        s2.m_Status = psPaddedAndAllRead ∧ s2.m_BitsRead = s.m_BitsRead ∧ s2 = s ∧
        ∀ c, s2.getNextMessageBlock c = .ok (false, c, s2) := by
  obtain ⟨e1, e2, hst, hp⟩ := getNext_false s s' b b' h
  refine ⟨e1, e2, hst, ?_⟩
  intro s2 hr
  rw [e1] at hr
  have e := reachable_of_exhausted hst hp hr
  subst e
  exact ⟨hst, rfl, rfl, fun c => getNext_allRead _ c hp hst⟩

/-- Witness for `exhausted_stays_exhausted`: the source built for the empty
message, after its single padding block has been pulled. -/
theorem exhausted_stays_exhausted_witness :
    (∃ s0, BufferSource.construct [] 0 = .ok s0 ∧
      s0.getNextMessageBlock ⟨[]⟩
        = .ok (true, blockOfBytes (0x80 :: List.replicate 63 0), drainedEmptySource)) ∧
    drainedEmptySource.getNextMessageBlock ⟨[]⟩ = .ok (false, ⟨[]⟩, drainedEmptySource) ∧
    (drainedEmptySource = drainedEmptySource ∧ (⟨[]⟩ : MessageBlock) = ⟨[]⟩ ∧
      drainedEmptySource.m_Status = psPaddedAndAllRead ∧
      ∀ s2, Reachable drainedEmptySource s2 →
        s2.m_Status = psPaddedAndAllRead ∧ s2.m_BitsRead = drainedEmptySource.m_BitsRead ∧
        s2 = drainedEmptySource ∧
        ∀ c, s2.getNextMessageBlock c = .ok (false, c, s2)) :=
  ⟨⟨_, rfl, rfl⟩, rfl,
    exhausted_stays_exhausted drainedEmptySource drainedEmptySource ⟨[]⟩ ⟨[]⟩ rfl⟩

/-- C7: no read leaves its buffer.  For a buffer of exactly the declared number of
bytes the constructor returns normally, its tail copy reads the offsets from
`L - L mod 64` up to `L` only, and for every source reachable by any sequence of
pulls: the next call returns normally (no access out of bounds), a payload read
starts at byte `m_BitsRead / 8` with `m_BitsRead / 8 + 64 ≤ L`, a read of the first
frame half finds at least 64 bytes, and the read at frame offset 64 happens only
with a 128-byte frame. -/
theorem reads_stay_in_bounds (data : List Nat) (n : Nat) (hn : n < 2 ^ 64)
    (hlen : data.length = bufferSize n) :
    ∃ s0, BufferSource.construct data n = .ok s0 ∧ s0.m_BufferSize = data.length ∧
      readBytes data (s0.m_BufferSize - s0.m_BufferSize % 64) (s0.m_BufferSize % 64)
        = .ok (data.drop (data.length - data.length % 64)) ∧
      (data.length - data.length % 64) + data.length % 64 = data.length ∧
      ∀ s, Reachable s0 s →
        (∀ b, ∃ r b' s', s.getNextMessageBlock b = .ok (r, b', s')) ∧
        ((s.m_BitsRead + 512) % 2 ^ 64 ≤ s.m_BufferSize →
          s.m_BitsRead / 8 + 64 ≤ data.length) ∧
        (¬ (s.m_BitsRead + 512) % 2 ^ 64 ≤ s.m_BufferSize →
          (s.m_Status = psPadded512 ∨ s.m_Status = psPadded1024 →
            0 + 64 ≤ s.m_PaddingBuffer.length) ∧
          (s.m_Status = psPadded1024And512Read →
            s.m_PaddingBuffer.length = 128 ∧ 64 + 64 ≤ s.m_PaddingBuffer.length)) := by
  have hm := Nat.mod_le data.length 64
  refine ⟨_, construct_eq data n hn (by omega), hlen.symm, ?_, by omega, ?_⟩
  · show readBytes data (bufferSize n - bufferSize n % 64) (bufferSize n % 64) = _
    rw [← hlen, readBytes_ok _ _ _ (by omega), tail_take data _ _ rfl hm]
  · intro s hr
    obtain ⟨hw, -, e2, e3⟩ := reachable_wellFormed
      (construct_wellFormed data n hn (by omega)) hr
    have e3 : s.m_BufferSize = bufferSize n := e3
    have e2 : s.m_BufferPointer = data := e2
    have hbits := hw.bits_le
    have hsz := hw.size_bound
    have hmod : (s.m_BitsRead + 512) % 2 ^ 64 = s.m_BitsRead + 512 :=
      Nat.mod_eq_of_lt (by omega)
    refine ⟨fun b => ?_, ?_, ?_⟩
    · obtain ⟨r, b', s', hs, -⟩ := getNext_wellFormed s b hw
      exact ⟨r, b', s', hs⟩
    · intro hp; rw [hmod] at hp; omega
    · intro _
      refine ⟨?_, fun h => ?_⟩
      · rintro (h | h)
        · rw [hw.frame512 h]
        · rw [hw.frame1024 h]; omega
      · rw [hw.frameHalf h]; exact ⟨rfl, by omega⟩

/-- Witness for `reads_stay_in_bounds`: a 70-byte buffer declared with 560 bits. -/
theorem reads_stay_in_bounds_witness :
    (560 : Nat) < 2 ^ 64 ∧ (List.replicate 70 0x61).length = bufferSize 560 ∧
    ∃ s0, BufferSource.construct (List.replicate 70 0x61) 560 = .ok s0 ∧
      s0.m_BufferSize = (List.replicate 70 0x61).length ∧
      readBytes (List.replicate 70 0x61) (s0.m_BufferSize - s0.m_BufferSize % 64)
          (s0.m_BufferSize % 64)
        = .ok ((List.replicate 70 0x61).drop
            ((List.replicate 70 0x61).length - (List.replicate 70 0x61).length % 64)) ∧
      ((List.replicate 70 0x61).length - (List.replicate 70 0x61).length % 64)
        + (List.replicate 70 0x61).length % 64 = (List.replicate 70 0x61).length ∧
      ∀ s, Reachable s0 s →
        (∀ b, ∃ r b' s', s.getNextMessageBlock b = .ok (r, b', s')) ∧
        ((s.m_BitsRead + 512) % 2 ^ 64 ≤ s.m_BufferSize →
          s.m_BitsRead / 8 + 64 ≤ (List.replicate 70 0x61).length) ∧
        (¬ (s.m_BitsRead + 512) % 2 ^ 64 ≤ s.m_BufferSize →
          (s.m_Status = psPadded512 ∨ s.m_Status = psPadded1024 →
            0 + 64 ≤ s.m_PaddingBuffer.length) ∧
          (s.m_Status = psPadded1024And512Read →
            s.m_PaddingBuffer.length = 128 ∧ 64 + 64 ≤ s.m_PaddingBuffer.length)) :=
  ⟨by decide, by decide, reads_stay_in_bounds (List.replicate 70 0x61) 560 (by decide) (by decide)⟩

/-- C8: for every declared bit length `n < 2^64 - 7` the constructor sets the byte
count `m_BufferSize` to `n` rounded up to whole bytes (`n / 8` when `n` is a
multiple of 8, `n / 8 + 1` otherwise) and writes `8 * m_BufferSize`, the declared
length rounded up to the next multiple of 8, into the length field, the last 8
bytes of the frame, in big-endian order. -/
theorem length_rounded_up (data : List Nat) (n : Nat) (hn : n < 2 ^ 64 - 7)
    (hlen : (n + 7) / 8 ≤ data.length) :
    ∃ s, BufferSource.construct data n = .ok s ∧
      s.m_BufferSize = (n + 7) / 8 ∧
      (n % 8 = 0 → s.m_BufferSize = n / 8) ∧
      (n % 8 ≠ 0 → s.m_BufferSize = n / 8 + 1) ∧
      s.m_PaddingBuffer.drop (s.m_PaddingBuffer.length - 8) = beBytes64 (8 * ((n + 7) / 8)) ∧
      valueBE (s.m_PaddingBuffer.drop (s.m_PaddingBuffer.length - 8)) = 8 * ((n + 7) / 8) ∧
      n ≤ 8 * ((n + 7) / 8) ∧ 8 * ((n + 7) / 8) < n + 8 := by
  have hB : bufferSize n = (n + 7) / 8 := by
    unfold bufferSize; split <;> omega
  obtain ⟨s, tail, z, hc, hsz, -, -, -, -, -, hframe, -⟩ :=
    construct_frame data n (by omega) (by rw [hB]; exact hlen)
  obtain ⟨-, -, -, -, f5⟩ := frame_shape tail (beBytes64 ((bufferSize n * 8) % 2 ^ 64)) z
    (length_beBytes64 _)
  rw [← hframe] at f5
  have hv : (bufferSize n * 8) % 2 ^ 64 = 8 * ((n + 7) / 8) := by
    rw [hB, Nat.mod_eq_of_lt (by omega)]; omega
  rw [hv] at f5
  refine ⟨s, hc, by rw [hsz, hB], ?_, ?_, f5, ?_, by omega, by omega⟩
  · intro h8; rw [hsz, hB]; omega
  · intro h8; rw [hsz, hB]; omega
  · rw [f5, valueBE_beBytes64 _ (by omega)]

/-- Witness for `length_rounded_up`: nine declared bits over a two-byte buffer. -/
theorem length_rounded_up_witness :
    9 < 2 ^ 64 - 7 ∧ (9 + 7) / 8 ≤ [0x12, 0x80].length ∧
    ∃ s, BufferSource.construct [0x12, 0x80] 9 = .ok s ∧
      s.m_BufferSize = (9 + 7) / 8 ∧
      (9 % 8 = 0 → s.m_BufferSize = 9 / 8) ∧
      (9 % 8 ≠ 0 → s.m_BufferSize = 9 / 8 + 1) ∧
      s.m_PaddingBuffer.drop (s.m_PaddingBuffer.length - 8) = beBytes64 (8 * ((9 + 7) / 8)) ∧
      valueBE (s.m_PaddingBuffer.drop (s.m_PaddingBuffer.length - 8)) = 8 * ((9 + 7) / 8) ∧
      9 ≤ 8 * ((9 + 7) / 8) ∧ 8 * ((9 + 7) / 8) < 9 + 8 :=
  ⟨by decide, by decide, length_rounded_up [0x12, 0x80] 9 (by decide) (by decide)⟩

/-- C9: `reverse32` and `reverse64` reverse the byte order: byte `i` of the result
is byte `3 - i` (respectively `7 - i`) of the argument, the result is again a
32-bit (64-bit) value, and each function is its own inverse.  The argument is
passed by value, so the result is the same when the output variable is the input
variable. -/
theorem reverse_is_byte_reversal (w32 w64 : Nat) (h32 : w32 < 2 ^ 32) (h64 : w64 < 2 ^ 64) :
    (∀ i, i < 4 → byteOf (reverse32 w32) i = byteOf w32 (3 - i)) ∧
    reverse32 w32 < 2 ^ 32 ∧ reverse32 (reverse32 w32) = w32 ∧
    (∀ i, i < 8 → byteOf (reverse64 w64) i = byteOf w64 (7 - i)) ∧
    reverse64 w64 < 2 ^ 64 ∧ reverse64 (reverse64 w64) = w64 :=
  ⟨reverse32_byteOf w32 h32, reverse32_lt w32, reverse32_reverse32 w32 h32,
    reverse64_byteOf w64 h64, reverse64_lt w64, reverse64_reverse64 w64 h64⟩

/-- Witness for `reverse_is_byte_reversal`. -/
theorem reverse_is_byte_reversal_witness :
    (0x12345678 : Nat) < 2 ^ 32 ∧ (0x0102030405060708 : Nat) < 2 ^ 64 ∧
    reverse32 0x12345678 = 0x78563412 ∧ reverse64 0x0102030405060708 = 0x0807060504030201 ∧
    (∀ i, i < 4 → byteOf (reverse32 0x12345678) i = byteOf 0x12345678 (3 - i)) ∧
    reverse32 0x12345678 < 2 ^ 32 ∧ reverse32 (reverse32 0x12345678) = 0x12345678 ∧
    (∀ i, i < 8 →
      byteOf (reverse64 0x0102030405060708) i = byteOf 0x0102030405060708 (7 - i)) ∧
    reverse64 0x0102030405060708 < 2 ^ 64 ∧
    reverse64 (reverse64 0x0102030405060708) = 0x0102030405060708 :=
  ⟨by decide, by decide, by decide, by decide,
    reverse_is_byte_reversal 0x12345678 0x0102030405060708 (by decide) (by decide)⟩

/-- C10: the padding is emitted by the stated state machine.  A constructed source
starts in `psPadded512` or `psPadded1024`.  For every source reachable from it on
which the payload test fails: in `psPadded512` the call returns true with the 64
bytes of the frame and moves to `psPaddedAndAllRead`, and the next call returns
false; in `psPadded1024` the call returns true with the bytes 0..63 and moves to
`psPadded1024And512Read`, the next returns true with the bytes 64..127 and moves to
`psPaddedAndAllRead`, and the one after returns false.  No call moves the status
to an earlier state. -/
theorem padding_state_machine (data : List Nat) (n : Nat) (hn : n < 2 ^ 64)
    (hlen : bufferSize n ≤ data.length) :
    ∃ s0, BufferSource.construct data n = .ok s0 ∧
      (s0.m_Status = psPadded512 ∨ s0.m_Status = psPadded1024) ∧
      ∀ s, Reachable s0 s →
        (∀ b r b' s', s.getNextMessageBlock b = .ok (r, b', s') →
          s.m_Status.rank ≤ s'.m_Status.rank) ∧
        (¬ (s.m_BitsRead + 512) % 2 ^ 64 ≤ s.m_BufferSize →
          (s.m_Status = psPadded512 → ∀ b c,
            s.m_PaddingBuffer.length = 64 ∧
            s.getNextMessageBlock b = .ok (true, blockOfBytes (s.m_PaddingBuffer.take 64),
              { s with m_Status := psPaddedAndAllRead, m_BitsRead := s.m_BitsRead + 512 }) ∧
            BufferSource.getNextMessageBlock
              { s with m_Status := psPaddedAndAllRead, m_BitsRead := s.m_BitsRead + 512 } c
              = .ok (false, c,
                { s with m_Status := psPaddedAndAllRead, m_BitsRead := s.m_BitsRead + 512 })) ∧
          (s.m_Status = psPadded1024 → ∀ b c d,
            s.m_PaddingBuffer.length = 128 ∧
            s.getNextMessageBlock b = .ok (true, blockOfBytes (s.m_PaddingBuffer.take 64),
              { s with m_Status := psPadded1024And512Read,
                       m_BitsRead := s.m_BitsRead + 512 }) ∧
            BufferSource.getNextMessageBlock
              { s with m_Status := psPadded1024And512Read, m_BitsRead := s.m_BitsRead + 512 } c
              = .ok (true, blockOfBytes ((s.m_PaddingBuffer.drop 64).take 64),
                { s with m_Status := psPaddedAndAllRead,
                         m_BitsRead := s.m_BitsRead + 512 + 512 }) ∧
            BufferSource.getNextMessageBlock
              { s with m_Status := psPaddedAndAllRead, m_BitsRead := s.m_BitsRead + 512 + 512 } d
              = .ok (false, d,
                { s with m_Status := psPaddedAndAllRead,
                         m_BitsRead := s.m_BitsRead + 512 + 512 }))) := by
  refine ⟨_, construct_eq data n hn hlen, ?_, ?_⟩
  · show frameStatus (bufferSize n) = psPadded512 ∨ frameStatus (bufferSize n) = psPadded1024
    unfold frameStatus; split <;> simp
  · intro s hr
    obtain ⟨hw, -, -, -⟩ := reachable_wellFormed (construct_wellFormed data n hn hlen) hr
    have hsz := hw.size_bound
    refine ⟨?_, ?_⟩
    · intro b r b' s' hs
      obtain ⟨r2, b2, s2, hs2, -, -, -, -, hrank⟩ := getNext_wellFormed s b hw
      rw [hs] at hs2
      simp only [Except.ok.injEq, Prod.mk.injEq] at hs2
      obtain ⟨-, -, rfl⟩ := hs2
      exact hrank
    · intro hp
      refine ⟨fun hst b c => ?_, fun hst b c d => ?_⟩
      · have hb := hw.bits_fresh (Or.inl hst)
        have hf := hw.frame512 hst
        rw [Nat.mod_eq_of_lt (by omega)] at hp
        refine ⟨hf, getNext_padded512 s b hp (by omega) hst (by omega),
          getNext_allRead _ c ?_ rfl⟩
        show ¬ (s.m_BitsRead + 512 + 512) % 2 ^ 64 ≤ s.m_BufferSize
        rw [Nat.mod_eq_of_lt (by omega)]; omega
      · have hb := hw.bits_fresh (Or.inr hst)
        have hf := hw.frame1024 hst
        rw [Nat.mod_eq_of_lt (by omega)] at hp
        refine ⟨hf, getNext_padded1024 s b hp (by omega) hst (by omega),
          getNext_padded1024And512Read _ c ?_ ?_ rfl ?_, getNext_allRead _ d ?_ rfl⟩
        · show ¬ s.m_BitsRead + 512 + 512 ≤ s.m_BufferSize; omega
        · show s.m_BitsRead + 512 + 512 < 2 ^ 64; omega
        · show 128 ≤ s.m_PaddingBuffer.length; omega
        · show ¬ (s.m_BitsRead + 512 + 512 + 512) % 2 ^ 64 ≤ s.m_BufferSize
          rw [Nat.mod_eq_of_lt (by omega)]; omega

/-- Witness for `padding_state_machine`: 56 bytes declared with 448 bits, which
need the two-frame padding. -/
theorem padding_state_machine_witness :
    (448 : Nat) < 2 ^ 64 ∧ bufferSize 448 ≤ (List.replicate 56 0x61).length ∧
    ∃ s0, BufferSource.construct (List.replicate 56 0x61) 448 = .ok s0 ∧
      (s0.m_Status = psPadded512 ∨ s0.m_Status = psPadded1024) ∧
      ∀ s, Reachable s0 s →
        (∀ b r b' s', s.getNextMessageBlock b = .ok (r, b', s') →
          s.m_Status.rank ≤ s'.m_Status.rank) ∧
        (¬ (s.m_BitsRead + 512) % 2 ^ 64 ≤ s.m_BufferSize →
          (s.m_Status = psPadded512 → ∀ b c,
            s.m_PaddingBuffer.length = 64 ∧
            s.getNextMessageBlock b = .ok (true, blockOfBytes (s.m_PaddingBuffer.take 64),
              { s with m_Status := psPaddedAndAllRead, m_BitsRead := s.m_BitsRead + 512 }) ∧
            BufferSource.getNextMessageBlock
              { s with m_Status := psPaddedAndAllRead, m_BitsRead := s.m_BitsRead + 512 } c
              = .ok (false, c,
                { s with m_Status := psPaddedAndAllRead, m_BitsRead := s.m_BitsRead + 512 })) ∧
          (s.m_Status = psPadded1024 → ∀ b c d,
            s.m_PaddingBuffer.length = 128 ∧
            s.getNextMessageBlock b = .ok (true, blockOfBytes (s.m_PaddingBuffer.take 64),
              { s with m_Status := psPadded1024And512Read,
                       m_BitsRead := s.m_BitsRead + 512 }) ∧
            BufferSource.getNextMessageBlock
              { s with m_Status := psPadded1024And512Read, m_BitsRead := s.m_BitsRead + 512 } c
              = .ok (true, blockOfBytes ((s.m_PaddingBuffer.drop 64).take 64),
                { s with m_Status := psPaddedAndAllRead,
                         m_BitsRead := s.m_BitsRead + 512 + 512 }) ∧
            BufferSource.getNextMessageBlock
              { s with m_Status := psPaddedAndAllRead, m_BitsRead := s.m_BitsRead + 512 + 512 } d
              = .ok (false, d,
                { s with m_Status := psPaddedAndAllRead,
                         m_BitsRead := s.m_BitsRead + 512 + 512 }))) :=
  ⟨by decide, by decide,
    padding_state_machine (List.replicate 56 0x61) 448 (by decide) (by decide)⟩

/-- C11: the branch `throw 42` is unreachable for a constructed source.  Whatever
the buffer and the declared length, a constructor that returns leaves the status
`psPadded512` or `psPadded1024`; on every source reached from it by any sequence of
calls the status is not `psUnpadded` and no call throws; and when the buffer holds
the declared number of bytes every such call returns normally. -/
theorem throw_unreachable (data : List Nat) (n : Nat) (s0 : BufferSource)
    (h : BufferSource.construct data n = .ok s0) :
    (s0.m_Status = psPadded512 ∨ s0.m_Status = psPadded1024) ∧
    (∀ s, Reachable s0 s → s.m_Status ≠ psUnpadded ∧
      ∀ b c, s.getNextMessageBlock b ≠ .error (Fault.thrown c)) ∧
    (n < 2 ^ 64 → bufferSize n ≤ data.length → ∀ s, Reachable s0 s →
      ∀ b, ∃ r b' s', s.getNextMessageBlock b = .ok (r, b', s')) := by
  obtain ⟨hst, hbits⟩ := construct_status data n s0 h
  have h0 : s0.m_Status ≠ psUnpadded := by
    rcases hst with e | e <;> rw [e] <;> simp
  refine ⟨hst, ?_, ?_⟩
  · intro s hr
    have hp := (reachable_padded h0 (by rw [hbits]; exact dvd_zero _) hr).1
    exact ⟨hp, fun b c hthrow => hp (getNext_thrown s b c hthrow).1⟩
  · intro hn hlen s hr b
    rw [construct_eq data n hn hlen] at h
    simp only [Except.ok.injEq] at h
    subst h
    obtain ⟨hw, -⟩ := reachable_wellFormed (construct_wellFormed data n hn hlen) hr
    obtain ⟨r, b', s', hs, -⟩ := getNext_wellFormed s b hw
    exact ⟨r, b', s', hs⟩

/-- Witness for `throw_unreachable`: the source constructed for the empty message. -/
theorem throw_unreachable_witness :
    BufferSource.construct [] 0 = .ok emptySource ∧
    (emptySource.m_Status = psPadded512 ∨ emptySource.m_Status = psPadded1024) ∧
    (∀ s, Reachable emptySource s → s.m_Status ≠ psUnpadded ∧
      ∀ b c, s.getNextMessageBlock b ≠ .error (Fault.thrown c)) ∧
    (0 < 2 ^ 64 → bufferSize 0 ≤ ([] : List Nat).length → ∀ s, Reachable emptySource s →
      ∀ b, ∃ r b' s', s.getNextMessageBlock b = .ok (r, b', s')) :=
  ⟨rfl, throw_unreachable [] 0 emptySource rfl⟩

/-- C12: the payload test compares the bit cursor with the byte count.  For every
buffer of `L` bytes the caller's loop ends and delivers exactly `L / 512` payload
blocks followed by the blocks of the padding frame; payload block `k` is read from
the 64 bytes at the offsets `64 k .. 64 k + 63` (as big-endian words when the
buffer holds bytes); the number of calls that return true is `L / 512 + 1` when
`L mod 64 ≤ 55` and `L / 512 + 2` otherwise; and on every source reached by any
sequence of calls the cursor `m_BitsRead` is a multiple of 512. -/
theorem payload_blocks_by_byte_count (data : List Nat) (h : 8 * data.length < 2 ^ 64)
    (fuel : Nat) (b : MessageBlock) :
    ∃ s0 blocks, BufferSource.construct data (8 * data.length) = .ok s0 ∧
      pullAll (fuel + data.length / 512 + 3) s0 b = Drain.blocks blocks ∧
      blocks = payloadBlocks data (data.length / 512) ++ paddingBlocks s0.m_PaddingBuffer ∧
      (payloadBlocks data (data.length / 512)).length = data.length / 512 ∧
      (∀ k, k < data.length / 512 →
        ((data.drop (64 * k)).take 64).length = 64 ∧
        blocks[k]? = some (blockOfBytes ((data.drop (64 * k)).take 64))) ∧
      ((∀ x ∈ data, x < 256) → ∀ k, k < data.length / 512 →
        blocks[k]? = some ⟨wordsBE ((data.drop (64 * k)).take 64)⟩) ∧
      (data.length % 64 ≤ 55 → blocks.length = data.length / 512 + 1) ∧
      (56 ≤ data.length % 64 → blocks.length = data.length / 512 + 2) ∧
      (∀ s, Reachable s0 s → 512 ∣ s.m_BitsRead) := by
  have hlen : bufferSize (8 * data.length) ≤ data.length := by rw [bufferSize_bytes]
  obtain ⟨s0, hc, hp⟩ := construct_pullAll data (8 * data.length) h hlen fuel b
  have hce := construct_eq data (8 * data.length) h hlen
  rw [hce] at hc
  simp only [Except.ok.injEq] at hc
  subst hc
  rw [bufferSize_bytes] at hp hce
  have hfl := length_paddingFrame data data.length (Or.inr (le_refl _))
  have hget : ∀ k, k < data.length / 512 →
      (payloadBlocks data (data.length / 512) ++ paddingBlocks (paddingFrame data data.length))[k]?
        = some (blockOfBytes ((data.drop (64 * k)).take 64)) := by
    intro k hk
    rw [List.getElem?_append_left (by rw [length_payloadBlocks]; exact hk),
      payloadBlocks_get data _ k hk]
  refine ⟨_, _, hce, hp, ?_, length_payloadBlocks _ _, ?_, ?_, ?_, ?_, ?_⟩
  · rfl
  · intro k hk
    refine ⟨?_, hget k hk⟩
    rw [List.length_take, List.length_drop]; omega
  · intro hbytes k hk
    rw [hget k hk, blockOfBytes_wordsBE]
    intro x hx
    exact hbytes x (List.mem_of_mem_drop (List.mem_of_mem_take hx))
  · intro h55
    rw [List.length_append, length_payloadBlocks, length_paddingBlocks, hfl]
    simp [frameSize]; omega
  · intro h56
    rw [List.length_append, length_payloadBlocks, length_paddingBlocks, hfl]
    simp [frameSize, h56]
  · intro s hr
    have h0 : frameStatus data.length ≠ psUnpadded := by
      unfold frameStatus; split <;> simp
    exact (reachable_padded h0 (dvd_zero _) hr).2

/-- Witness for `payload_blocks_by_byte_count`: 520 bytes, of which one payload
block is delivered. -/
theorem payload_blocks_by_byte_count_witness :
    8 * (List.replicate 520 0x61).length < 2 ^ 64 ∧
    ∃ s0 blocks,
      BufferSource.construct (List.replicate 520 0x61) (8 * (List.replicate 520 0x61).length)
        = .ok s0 ∧
      pullAll (0 + (List.replicate 520 0x61).length / 512 + 3) s0 ⟨[]⟩ = Drain.blocks blocks ∧
      blocks = payloadBlocks (List.replicate 520 0x61) ((List.replicate 520 0x61).length / 512)
        ++ paddingBlocks s0.m_PaddingBuffer ∧
      (payloadBlocks (List.replicate 520 0x61) ((List.replicate 520 0x61).length / 512)).length
        = (List.replicate 520 0x61).length / 512 ∧
      (∀ k, k < (List.replicate 520 0x61).length / 512 →
        (((List.replicate 520 0x61).drop (64 * k)).take 64).length = 64 ∧
        blocks[k]? = some (blockOfBytes (((List.replicate 520 0x61).drop (64 * k)).take 64))) ∧
      ((∀ x ∈ List.replicate 520 0x61, x < 256) →
        ∀ k, k < (List.replicate 520 0x61).length / 512 →
          blocks[k]? = some ⟨wordsBE (((List.replicate 520 0x61).drop (64 * k)).take 64)⟩) ∧
      ((List.replicate 520 0x61).length % 64 ≤ 55 →
        blocks.length = (List.replicate 520 0x61).length / 512 + 1) ∧
      (56 ≤ (List.replicate 520 0x61).length % 64 →
        blocks.length = (List.replicate 520 0x61).length / 512 + 2) ∧
      (∀ s, Reachable s0 s → 512 ∣ s.m_BitsRead) :=
  ⟨by simp, payload_blocks_by_byte_count (List.replicate 520 0x61) (by simp) 0 ⟨[]⟩⟩

end SHA256
